import Mathlib

/-!
Verification of the filter evaluation engine of `bilibili-following-analyzer`.

The definitions below are a shallow embedding of the Python sources
`bilibili_following_analyzer/filters.py` and
`bilibili_following_analyzer/cache.py`.  Python machine-level details are
modelled as follows:

* Python `int` is `Int` (arbitrary precision in both languages);
  Python floor division `//` is `Int.fdiv`.
* Python `float` values (only the `repost-ratio` parameter and the repost
  ratio itself) are modelled as exact rationals `ℚ`.
* Python dicts holding API records are modelled as structures; the stat
  record's fields are `Option`-valued because the code reads them with
  `stat.get(field, 0)` (a missing key yields the default `0`), while the
  activity record's fields are read with `activity['k']` (a missing key
  raises), so a cached value of the wrong shape is modelled as a fallible
  extraction (`CacheValue.asActivity`).
* Fallible evaluation (dict key errors, `ZeroDivisionError`) returns
  `Except String`; the mutable `FilterContext` / disk-cache state is passed
  explicitly, extended with ghost logs of the underlying data-source calls
  so that "no fetch happens" claims are statable.
* The data source (`BilibiliClient`) is an external collaborator and is
  modelled as a pure oracle in `ContextEnv`.
-/

namespace BFA

/-- The stat field a threshold filter compares (`stat_field` in the source:
the string `'follower'` or `'following'`). -/
inductive StatField where
  | follower
  | following
deriving DecidableEq

/-- A user-stat record as consumed by `_ThresholdStatFilter.matches`
(`filters.py`).  The code reads `stat.get(self.stat_field, 0)`, so each
field may be absent. -/
structure StatRecord where
  follower : Option Int
  following : Option Int
deriving DecidableEq

/-- `stat.get(field)` on a stat record. -/
def StatRecord.get (s : StatRecord) : StatField → Option Int
  | .follower => s.follower
  | .following => s.following

/-- A user-activity record.  `BilibiliClient.get_user_activity` is not part
of the provided sources; its result shape is modelled from the spec
interface `fetchActivity(id, maxRecentPosts) -> {isDeactivated, totalPosts,
repostCount, lastPostTimestamp}` and from the keys the filters read
(`is_deactivated`, `total_dynamics`, `repost_count`, `last_post_ts`). -/
structure ActivityRecord where
  is_deactivated : Bool
  total_dynamics : Nat
  repost_count : Nat
  last_post_ts : Option Int
deriving DecidableEq

/-- A value stored in the disk cache (the cache stores both kinds of
record, under disjoint keys). -/
inductive CacheValue where
  | stat (s : StatRecord)
  | activity (a : ActivityRecord)
deriving DecidableEq

/-- Reading a cached value as a stat dict.  The filters read stat dicts
only via `stat.get(field, 0)`, so a value of the wrong shape (which lacks
the `follower` / `following` keys) behaves like the empty record. -/
def CacheValue.asStat : CacheValue → StatRecord
  | .stat s => s
  | .activity _ => ⟨none, none⟩

/-- Reading a cached value as an activity dict.  The filters read activity
dicts via `activity['is_deactivated']` etc., which raises `KeyError` on a
dict of the wrong shape. -/
def CacheValue.asActivity : CacheValue → Except String ActivityRecord
  | .activity a => .ok a
  | .stat _ => .error "KeyError"

/-- Whether a cached value is an activity record. -/
def CacheValue.isActivityB : CacheValue → Bool
  | .activity _ => true
  | .stat _ => false

/-- A disk-cache key.  The source builds string keys
`make_user_stat_key(mid) = f'user_stat:{mid}'` and
`make_user_activity_key(mid) = f'user_activity:{mid}'`; the structured key
below carries exactly the same information (the two formats are injective
in `mid` and have disjoint ranges). -/
inductive Key where
  | user_stat (mid : Int)
  | user_activity (mid : Int)
deriving DecidableEq

/-- `make_user_stat_key` (`cache.py`). -/
def make_user_stat_key (mid : Int) : Key := .user_stat mid

/-- `make_user_activity_key` (`cache.py`). -/
def make_user_activity_key (mid : Int) : Key := .user_activity mid

/-- `TTL_USER_STAT` (`cache.py`): 24 hours in seconds. -/
def TTL_USER_STAT : Int := 24 * 60 * 60

/-- `TTL_USER_ACTIVITY` (`cache.py`): 6 hours in seconds. -/
def TTL_USER_ACTIVITY : Int := 6 * 60 * 60

/-- One entry of the disk cache: key, value and absolute expiry time
(`diskcache` stores `expire_time = now + ttl` on `set(key, value,
expire=ttl)`). -/
structure CacheEntry where
  key : Key
  value : CacheValue
  expire_time : Int
deriving DecidableEq

/-- The disk cache contents (the `diskcache.Cache` collaborator),
modelled as an association list; a newer entry for a key shadows an older
one. -/
abbrev CacheState := List CacheEntry

/-- `diskcache.Cache.get(key)` at time `now`: an entry past its expiry
time is treated as absent (spec: "Entries past `expiresAt` are treated as
absent"). -/
def CacheState.get (c : CacheState) (now : Int) (key : Key) : Option CacheValue :=
  match List.find? (fun entry => decide (entry.key = key)) c with
  | some entry => if now < entry.expire_time then some entry.value else none
  | none => none

/-- `diskcache.Cache.set(key, value, expire=ttl)` at time `now`. -/
def CacheState.set (c : CacheState) (now : Int) (key : Key) (value : CacheValue)
    (ttl : Int) : CacheState :=
  CacheEntry.mk key value (now + ttl) :: c

/-- `CachedDataFetcher` (`cache.py`): `cache = none` is the disabled
(pass-through) mode, constructed by `CachedDataFetcher()` with no backing
store. -/
structure CachedDataFetcher where
  cache : Option CacheState
deriving DecidableEq

/-- `CachedDataFetcher.get_or_fetch(key, fetcher, ttl)` (`cache.py`).
The `fetcher` callable is pure in this model, so it is passed as the value
`fetched` it would compute; the returned `Nat` counts how many times the
callable was invoked during the call (0 or 1). -/
def CachedDataFetcher.get_or_fetch (self : CachedDataFetcher) (now : Int)
    (key : Key) (fetched : CacheValue) (ttl : Int) :
    CacheValue × CachedDataFetcher × Nat :=
  match self.cache with
  | none => (fetched, self, 1)
  | some c =>
    match c.get now key with
    | some value => (value, self, 0)
    | none => (fetched, ⟨some (c.set now key fetched ttl)⟩, 1)

/-- `Following` (`filters.py`).  The relationship field is named
`attribute` in the source; `attribute` is reserved in Lean, hence
`rel_attribute`. -/
structure Following where
  mid : Int
  name : String
  rel_attribute : Int
deriving DecidableEq

/-- `Following.is_mutual`: the relationship attribute 6 is a mutual
follow. -/
def Following.is_mutual (f : Following) : Bool := f.rel_attribute = 6

/-- `MatchInfo` (`filters.py`). -/
structure MatchInfo where
  matched : Bool
  detail : Option String
  filter_names : List String
deriving DecidableEq

/-- `MatchInfo.no_match()`. -/
def MatchInfo.no_match : MatchInfo := ⟨false, none, []⟩

/-- `MatchInfo.match(filter_name, detail)` (named `match1` because `match`
is reserved in Lean). -/
def MatchInfo.match1 (filter_name : String) (detail : String) : MatchInfo :=
  ⟨true, some detail, [filter_name]⟩

/-- The immutable part of `FilterContext` (`filters.py`) together with the
data-source oracle: the API client, the caller's own id, the interacting
user set, and the current time (`time.time()` is treated as constant
during a run).  `client_activity` is modelled from the spec interface
`fetchActivity` since `BilibiliClient.get_user_activity` is absent from
the provided sources; the `max_dynamics` bound is the constant 10 for
every filter call and is folded into the oracle. -/
structure ContextEnv where
  client_stat : Int → StatRecord
  client_activity : Int → ActivityRecord
  my_mid : Int
  interacting_users : List Int
  now : Int

/-- The mutable part of `FilterContext`: the two in-memory memo maps and
the disk-cache fetcher, plus ghost logs of the underlying data-source
calls actually made (one log entry per invocation of the fetch lambda). -/
structure EvalState where
  user_stats : List (Int × CacheValue)
  user_activity : List (Int × CacheValue)
  cache : CachedDataFetcher
  stat_fetch_log : List Int
  activity_fetch_log : List Int
deriving DecidableEq

/-- Lookup in an in-memory memo map (`mid in self.user_stats`). -/
def assocLookup {α : Type} : List (Int × α) → Int → Option α
  | [], _ => none
  | (k, v) :: rest, m => if k = m then some v else assocLookup rest m

/-- `FilterContext.get_user_stat(mid)` (`filters.py`): memo map first,
then `cache.get_or_fetch` with the stat TTL, memoizing the result. -/
def get_user_stat (env : ContextEnv) (st : EvalState) (mid : Int) :
    CacheValue × EvalState :=
  match assocLookup st.user_stats mid with
  | some v => (v, st)
  | none =>
    let r := st.cache.get_or_fetch env.now (make_user_stat_key mid)
      (.stat (env.client_stat mid)) TTL_USER_STAT
    (r.1, { st with
      user_stats := (mid, r.1) :: st.user_stats
      cache := r.2.1
      stat_fetch_log := st.stat_fetch_log ++ (if r.2.2 = 0 then [] else [mid]) })

/-- `FilterContext.get_user_activity(mid)` (`filters.py`). -/
def get_user_activity (env : ContextEnv) (st : EvalState) (mid : Int) :
    CacheValue × EvalState :=
  match assocLookup st.user_activity mid with
  | some v => (v, st)
  | none =>
    let r := st.cache.get_or_fetch env.now (make_user_activity_key mid)
      (.activity (env.client_activity mid)) TTL_USER_ACTIVITY
    (r.1, { st with
      user_activity := (mid, r.1) :: st.user_activity
      cache := r.2.1
      activity_fetch_log := st.activity_fetch_log ++ (if r.2.2 = 0 then [] else [mid]) })

/-- The predicate tree (`Filter` and its subclasses in `filters.py`, as a
closed sum).  `thresholdStat` carries the class attributes of the
`_ThresholdStatFilter` subclasses (`name`, `stat_field`, `compare_above`,
`detail_prefix` — renamed `label`) plus the constructor parameter. -/
inductive Filter where
  | notFollowingBack
  | mutualFollow
  | thresholdStat (fname : String) (stat_field : StatField)
      (compare_above : Bool) (label : String) (threshold : Int)
  | noInteraction
  | inactive (days : Int)
  | repostRatioFilter (rate : ℚ)
  | deactivated
  | noPosts
  | and_ (filters : List Filter)
  | or_ (filters : List Filter)

/-- `BelowFollowersFilter(threshold)`. -/
def BelowFollowersFilter (threshold : Int) : Filter :=
  .thresholdStat "below-followers" .follower false "粉丝数" threshold

/-- `AboveFollowersFilter(threshold)`. -/
def AboveFollowersFilter (threshold : Int) : Filter :=
  .thresholdStat "above-followers" .follower true "粉丝数" threshold

/-- `TooManyFollowingsFilter(threshold)`. -/
def TooManyFollowingsFilter (threshold : Int) : Filter :=
  .thresholdStat "too-many-followings" .following true "关注数" threshold

/-- Python truthiness of `if result.detail:` in the composite filters:
`None` and the empty string contribute nothing. -/
def detailList : Option String → List String
  | none => []
  | some d => if d = "" then [] else [d]

/-- Division raising `ZeroDivisionError` on a zero divisor, as Python
`/` does. -/
def checkedDivQ (a b : ℚ) : Except String ℚ :=
  if b = 0 then .error "ZeroDivisionError" else .ok (a / b)

mutual

/-- `Filter.matches(following, ctx)` for every concrete filter class in
`filters.py`.  Returns the `MatchInfo` and the updated mutable context;
`.error` marks a point where the Python code would raise. -/
def Filter.matches (f : Filter) (u : Following) (env : ContextEnv)
    (st : EvalState) : Except String (MatchInfo × EvalState) :=
  match f with
  | .notFollowingBack =>
    .ok (if !u.is_mutual then .match1 "not-following-back" "未回关" else .no_match, st)
  | .mutualFollow =>
    .ok (if u.is_mutual then .match1 "mutual" "互相关注" else .no_match, st)
  | .thresholdStat fname stat_field compare_above label threshold =>
    let r := get_user_stat env st u.mid
    let value := (r.1.asStat.get stat_field).getD 0
    let matched := if compare_above then value > threshold else value < threshold
    .ok (if matched then .match1 fname (label ++ " " ++ toString value) else .no_match,
      r.2)
  | .noInteraction =>
    .ok (if !(u.mid ∈ env.interacting_users) then
      .match1 "no-interaction" "无近期互动" else .no_match, st)
  | .inactive days =>
    let r := get_user_activity env st u.mid
    match r.1.asActivity with
    | .error e => .error e
    | .ok a =>
      if a.is_deactivated then .ok (.match1 "inactive" "账号已注销", r.2)
      else if a.total_dynamics = 0 then .ok (.match1 "inactive" "无任何动态", r.2)
      else
        match a.last_post_ts with
        | some ts =>
          let days_since_post := Int.fdiv (env.now - ts) 86400
          if days_since_post > days then
            .ok (.match1 "inactive" ("超过 " ++ toString days_since_post ++ " 天未更新"), r.2)
          else .ok (.no_match, r.2)
        | none => .ok (.no_match, r.2)
  | .repostRatioFilter rate =>
    let r := get_user_activity env st u.mid
    match r.1.asActivity with
    | .error e => .error e
    | .ok a =>
      if a.total_dynamics = 0 then .ok (.no_match, r.2)
      else
        match checkedDivQ (a.repost_count : ℚ) (a.total_dynamics : ℚ) with
        | .error e => .error e
        | .ok q =>
          if q ≥ rate then
            let pct := Rat.floor (q * 100)
            .ok (.match1 "repost-ratio" (toString pct ++ "% 为转发"), r.2)
          else .ok (.no_match, r.2)
  | .deactivated =>
    let r := get_user_activity env st u.mid
    match r.1.asActivity with
    | .error e => .error e
    | .ok a =>
      if a.is_deactivated then .ok (.match1 "deactivated" "账号已注销或不可访问", r.2)
      else .ok (.no_match, r.2)
  | .noPosts =>
    let r := get_user_activity env st u.mid
    match r.1.asActivity with
    | .error e => .error e
    | .ok a =>
      if !a.is_deactivated && a.total_dynamics = 0 then
        .ok (.match1 "no-posts" "无任何动态", r.2)
      else .ok (.no_match, r.2)
  | .and_ filters => andGo u env filters st [] []
  | .or_ filters => orGo u env filters st [] []
termination_by sizeOf f
decreasing_by all_goals (simp_wf <;> omega)

/-- The loop body of `AndFilter.matches`: `all_details` / `all_filter_names`
are the accumulators, and the loop returns `no_match` on the first
non-matching child. -/
def andGo (u : Following) (env : ContextEnv) (fs : List Filter) (st : EvalState)
    (all_details : List String) (all_filter_names : List String) :
    Except String (MatchInfo × EvalState) :=
  match fs with
  | [] =>
    .ok (⟨true,
      if all_details.isEmpty then none else some (String.intercalate "; " all_details),
      all_filter_names⟩, st)
  | f :: rest =>
    match Filter.matches f u env st with
    | .error e => .error e
    | .ok (result, st₁) =>
      if !result.matched then .ok (.no_match, st₁)
      else andGo u env rest st₁ (all_details ++ detailList result.detail)
        (all_filter_names ++ result.filter_names)
termination_by sizeOf fs
decreasing_by all_goals (simp_wf <;> omega)

/-- The loop body of `OrFilter.matches`: every child is evaluated; only
matching children contribute, and the final result is a match iff the
collected `all_filter_names` is non-empty. -/
def orGo (u : Following) (env : ContextEnv) (fs : List Filter) (st : EvalState)
    (all_details : List String) (all_filter_names : List String) :
    Except String (MatchInfo × EvalState) :=
  match fs with
  | [] =>
    if !all_filter_names.isEmpty then
      .ok (⟨true,
        if all_details.isEmpty then none else some (String.intercalate "; " all_details),
        all_filter_names⟩, st)
    else .ok (.no_match, st)
  | f :: rest =>
    match Filter.matches f u env st with
    | .error e => .error e
    | .ok (result, st₁) =>
      if result.matched then
        orGo u env rest st₁ (all_details ++ detailList result.detail)
          (all_filter_names ++ result.filter_names)
      else orGo u env rest st₁ all_details all_filter_names
termination_by sizeOf fs
decreasing_by all_goals (simp_wf <;> omega)

end

/-- Sequential evaluation of a list of filters against one subject,
collecting every child's `MatchInfo` (the reference semantics used to
state order-of-evaluation properties of the composite filters). -/
def evalSeq (fs : List Filter) (u : Following) (env : ContextEnv)
    (st : EvalState) : Except String (List MatchInfo × EvalState) :=
  match fs with
  | [] => .ok ([], st)
  | f :: rest =>
    match Filter.matches f u env st with
    | .error e => .error e
    | .ok (r, st₁) =>
      match evalSeq rest u env st₁ with
      | .error e => .error e
      | .ok (rs, st₂) => .ok (r :: rs, st₂)

/-- An arbitrary sequence of predicate evaluations within one context
lifetime (each item is one `matches` call); results are discarded, state
threads through. -/
def runEvals (evals : List (Filter × Following)) (env : ContextEnv)
    (st : EvalState) : Except String EvalState :=
  match evals with
  | [] => .ok st
  | (f, u) :: rest =>
    match Filter.matches f u env st with
    | .error e => .error e
    | .ok (_, st₁) => runEvals rest env st₁

/-- The state of a freshly created `FilterContext` holding the given
fetcher: empty memo maps (and empty ghost fetch logs). -/
def initState (cdf : CachedDataFetcher) : EvalState := ⟨[], [], cdf, [], []⟩

/-- Concatenation of the `filter_names` of a list of child results, in
order. -/
def collectNames : List MatchInfo → List String
  | [] => []
  | r :: rs => r.filter_names ++ collectNames rs

/-- The non-empty `detail` strings of a list of child results, in order. -/
def collectDetails : List MatchInfo → List String
  | [] => []
  | r :: rs => detailList r.detail ++ collectDetails rs

/-- `'; '.join(all_details) if all_details else None`. -/
def joinOpt (ds : List String) : Option String :=
  if ds.isEmpty then none else some (String.intercalate "; " ds)

/-- The merged result `OrFilter.matches` produces from the children's
individual results. -/
def mergeOr (rs : List MatchInfo) : MatchInfo :=
  let ms := rs.filter (fun r => r.matched)
  let ns := collectNames ms
  if ns.isEmpty then .no_match else ⟨true, joinOpt (collectDetails ms), ns⟩

/-- Well-formedness of a disk-cache fetcher: every entry stored under an
activity key holds an activity record. -/
def WFCache (cdf : CachedDataFetcher) : Prop :=
  ∀ c, cdf.cache = some c → ∀ entry ∈ c, ∀ m : Int,
    entry.key = .user_activity m → entry.value.isActivityB = true

/-- Well-formedness of the mutable state: every cached or memoized value
stored under an activity key is an activity record.  This holds for every
state the engine can actually reach (the two key families are disjoint)
and is what makes the activity dict accesses in the filters safe. -/
def WFState (st : EvalState) : Prop :=
  (∀ m v, assocLookup st.user_activity m = some v → v.isActivityB = true) ∧
  WFCache st.cache

/-- The memoization invariant: each id was fetched from the data source at
most once, and an id that was fetched is present in the corresponding memo
map. -/
def FetchInv (st : EvalState) : Prop :=
  (∀ m : Int, st.stat_fetch_log.count m ≤ 1 ∧
    (m ∈ st.stat_fetch_log → (assocLookup st.user_stats m).isSome = true)) ∧
  (∀ m : Int, st.activity_fetch_log.count m ≤ 1 ∧
    (m ∈ st.activity_fetch_log → (assocLookup st.user_activity m).isSome = true))

/-!
## Registry, flat-spec parsing and predicate construction (`filters.py`)
-/

/-- Python `repr` of a filter name (names never contain quotes or escape
characters, so `repr` is just single quotes). -/
def pyRepr (s : String) : String := "'" ++ s ++ "'"

/-- The names of `ALL_FILTERS`, in registration order (the keys of
`FILTER_REGISTRY`). -/
def registryNames : List String :=
  ["not-following-back", "mutual", "below-followers", "above-followers",
   "no-interaction", "too-many-followings", "inactive", "repost-ratio",
   "deactivated", "no-posts"]

/-- The `has_param` class attribute of the filter class registered under a
name. -/
def hasParamB (name : String) : Bool :=
  name = "below-followers" ∨ name = "above-followers" ∨
  name = "too-many-followings" ∨ name = "inactive" ∨ name = "repost-ratio"

/-- Lexicographic comparison of character lists by code point. -/
def listLtB : List Char → List Char → Bool
  | _, [] => false
  | [], _ :: _ => true
  | a :: as, b :: bs => if a < b then true else if b < a then false else listLtB as bs

/-- Python string `<` (lexicographic by code point). -/
def strLtB (a b : String) : Bool := listLtB a.data b.data

/-- Insert into an ascending list (helper for `sorted`). -/
def insertSorted (x : String) : List String → List String
  | [] => [x]
  | y :: ys => if strLtB x y then x :: y :: ys else y :: insertSorted x ys

/-- Python `sorted` on a list of strings (insertion sort; the registry
names are distinct so stability is irrelevant). -/
def pySorted : List String → List String
  | [] => []
  | x :: xs => insertSorted x (pySorted xs)

/-- `', '.join(sorted(FILTER_REGISTRY.keys()))`. -/
def availableStr : String := String.intercalate ", " (pySorted registryNames)

/-- The `Unknown filter` error message (identical text in
`parse_filter_spec` and `FilterExpressionParser._parse_filter_name`). -/
def unknownFilterMsg (name : String) : String :=
  "Unknown filter: " ++ pyRepr name ++ ". Available: " ++ availableStr

/-- The numeric value of a run of decimal digits. -/
def digitsVal (l : List Char) : Nat :=
  l.foldl (fun acc c => acc * 10 + (c.toNat - 48)) 0

/-- Python `int(s)` on the parameter strings reachable here, modelled for
the common grammar: optional sign followed by a non-empty digit run.
(Python additionally strips whitespace and allows `_` digit separators;
parameters never contain whitespace and the simplification only makes the
model reject some strings Python would accept.) -/
def parseIntPy (s : String) : Option Int :=
  match s.data with
  | '-' :: ds => if ds ≠ [] ∧ ds.all Char.isDigit then some (-(digitsVal ds : Int)) else none
  | '+' :: ds => if ds ≠ [] ∧ ds.all Char.isDigit then some (digitsVal ds : Int) else none
  | ds => if ds ≠ [] ∧ ds.all Char.isDigit then some (digitsVal ds : Int) else none

/-- Python `float(s)` modelled as an exact rational for the decimal
grammar `[+-]? digits [. digits]?` (either digit run may be empty but not
both; exponents and special values are omitted, and the binary rounding
Python performs is not modelled). -/
def parseFloatPy (s : String) : Option ℚ :=
  let core : List Char → Option ℚ := fun ds =>
    let ip := ds.takeWhile Char.isDigit
    let rest := ds.dropWhile Char.isDigit
    match rest with
    | [] => if ip ≠ [] then some (digitsVal ip : ℚ) else none
    | '.' :: fp =>
      if fp.all Char.isDigit ∧ (ip ≠ [] ∨ fp ≠ []) then
        some ((digitsVal ip : ℚ) + (digitsVal fp : ℚ) / ((10 : ℚ) ^ fp.length))
      else none
    | _ => none
  match s.data with
  | '-' :: ds => (core ds).map (fun q => -q)
  | '+' :: ds => core ds
  | ds => core ds

/-- `Filter._require_param` (`filters.py`). -/
def Filter._require_param (fname : String) : Option String → Except String String
  | none => .error ("Filter " ++ pyRepr fname ++ " requires a parameter")
  | some p => .ok p

/-- `Filter._parse_int_param` (`filters.py`). -/
def Filter._parse_int_param (fname : String) (param : Option String) :
    Except String Int :=
  match Filter._require_param fname param with
  | .error e => .error e
  | .ok p =>
    match parseIntPy p with
    | some n => .ok n
    | none => .error ("Filter " ++ pyRepr fname ++ " requires an integer")

/-- `Filter._parse_float_param` (`filters.py`). -/
def Filter._parse_float_param (fname : String) (param : Option String) :
    Except String ℚ :=
  match Filter._require_param fname param with
  | .error e => .error e
  | .ok p =>
    match parseFloatPy p with
    | some q => .ok q
    | none => .error ("Filter " ++ pyRepr fname ++ " requires a number")

/-- The base-class `Filter.create` for filter classes without a parameter:
any supplied parameter is rejected. -/
def createNoParam (fname : String) (f : Filter) : Option String → Except String Filter
  | none => .ok f
  | some _ => .error ("Filter " ++ pyRepr fname ++ " does not accept parameters")

/-- `FILTER_REGISTRY[name].create(param)`, with the registry lookup folded
in: an unregistered name yields the `Unknown filter` error, whose text is
identical at both call sites (`parse_filter_spec` and
`_parse_filter_name`). -/
def registryCreate (name : String) (param : Option String) : Except String Filter :=
  if name = "not-following-back" then createNoParam name .notFollowingBack param
  else if name = "mutual" then createNoParam name .mutualFollow param
  else if name = "below-followers" then
    match Filter._parse_int_param name param with
    | .error e => .error e
    | .ok n => .ok (BelowFollowersFilter n)
  else if name = "above-followers" then
    match Filter._parse_int_param name param with
    | .error e => .error e
    | .ok n => .ok (AboveFollowersFilter n)
  else if name = "no-interaction" then createNoParam name .noInteraction param
  else if name = "too-many-followings" then
    match Filter._parse_int_param name param with
    | .error e => .error e
    | .ok n => .ok (TooManyFollowingsFilter n)
  else if name = "inactive" then
    match Filter._parse_int_param name param with
    | .error e => .error e
    | .ok n => .ok (.inactive n)
  else if name = "repost-ratio" then
    match Filter._parse_float_param name param with
    | .error e => .error e
    | .ok q => .ok (.repostRatioFilter q)
  else if name = "deactivated" then createNoParam name .deactivated param
  else if name = "no-posts" then createNoParam name .noPosts param
  else .error (unknownFilterMsg name)

/-- A character allowed in a flat-spec filter name (`[a-z-]`). -/
def isSpecNameChar (c : Char) : Bool := c.isLower || c == '-'

/-- The regex match `^([a-z-]+)(?::(.+))?$` of `parse_filter_spec`,
returning the name group and the optional parameter group.  (Python's `$`
also matching just before a trailing newline is not modelled; no claim
involves trailing-newline specs.) -/
def pyMatchSpec (l : List Char) : Option (List Char × Option (List Char)) :=
  let nm := l.takeWhile isSpecNameChar
  let rest := l.dropWhile isSpecNameChar
  if nm.isEmpty then none
  else
    match rest with
    | [] => some (nm, none)
    | ':' :: ps => if !ps.isEmpty && !ps.contains '\n' then some (nm, some ps) else none
    | _ => none

/-- `parse_filter_spec(spec)` (`filters.py`). -/
def parse_filter_spec (spec : String) : Except String Filter :=
  match pyMatchSpec spec.data with
  | none => .error ("Invalid filter spec: " ++ pyRepr spec)
  | some (nm, par) => registryCreate (String.mk nm) (par.map String.mk)

/-!
## Expression parser (`FilterExpressionParser` in `filters.py`)

The parser state is the fixed character list `e` (`self.expr`) and the
cursor `pos` (`self.pos`); each parsing function returns the new cursor,
bundled with the fact that the cursor never moves backwards (needed for
termination).
-/

/-- A character accepted into a filter name by `_parse_filter_name`
(`isalpha() or '-' or isdigit()`; Lean's `Char.isAlpha` is ASCII-only
while Python's is Unicode-aware, but every registered name is ASCII, so
the difference only affects which error an invalid name produces). -/
def isNameChar (c : Char) : Bool := c.isAlpha || c == '-' || c.isDigit

/-- The whitespace characters of `_skip_whitespace` (`' \t\n'`). -/
def wsChars : List Char := [' ', '\t', '\n']

/-- The characters terminating a parameter in `_parse_filter_name`
(`' \t\n+|()'`). -/
def paramStopChars : List Char := [' ', '\t', '\n', '+', '|', '(', ')']

/-- A scanning loop `while self.pos < self.length and test(self.expr[self.pos]):
self.pos += 1`, shared shape of `_skip_whitespace` and the name/parameter
scans of `_parse_filter_name`. -/
def scanWhile (test : Char → Bool) (e : List Char) (pos : Nat) : {p : Nat // pos ≤ p} :=
  if h : pos < e.length then
    if test (e.get ⟨pos, h⟩) then
      let r := scanWhile test e (pos + 1)
      ⟨r.val, Nat.le_of_succ_le r.property⟩
    else ⟨pos, Nat.le_refl pos⟩
  else ⟨pos, Nat.le_refl pos⟩
termination_by e.length - pos

/-- `_skip_whitespace` (`filters.py`). -/
def skipWs (e : List Char) (pos : Nat) : {p : Nat // pos ≤ p} :=
  scanWhile (fun c => wsChars.contains c) e pos

/-- `self.expr[start : self.pos]`. -/
def slice (e : List Char) (a b : Nat) : List Char := (e.drop a).take (b - a)

/-- The optional-parameter part of `_parse_filter_name`: after the name,
a `':'` introduces a parameter running to the next whitespace, operator or
parenthesis. -/
def parseParamPart (e : List Char) (pos : Nat) : Option String × {p : Nat // pos ≤ p} :=
  if h : pos < e.length then
    if e.get ⟨pos, h⟩ = ':' then
      let p2 := scanWhile (fun c => !(paramStopChars.contains c)) e (pos + 1)
      (some (String.mk (slice e (pos + 1) p2.val)),
        ⟨p2.val, Nat.le_of_succ_le (Nat.lt_of_lt_of_le (Nat.lt_succ_self pos) p2.property)⟩)
    else (none, ⟨pos, Nat.le_refl pos⟩)
  else (none, ⟨pos, Nat.le_refl pos⟩)

/-- `_parse_filter_name` (`filters.py`). -/
def parseFilterName (e : List Char) (pos : Nat) :
    Except String (Filter × {p : Nat // pos ≤ p}) :=
  let p0 := skipWs e pos
  let p1 := scanWhile isNameChar e p0.val
  let name := slice e p0.val p1.val
  if name.isEmpty then .error ("Expected filter name at position " ++ toString p0.val)
  else
    match parseParamPart e p1.val with
    | (param, p2) =>
      match registryCreate (String.mk name) param with
      | .error msg => .error msg
      | .ok f =>
        .ok (f, ⟨p2.val, Nat.le_trans p0.property (Nat.le_trans p1.property p2.property)⟩)

mutual

/-- `_parse_or` (`filters.py`): OR has the lowest precedence. -/
def parseOr (e : List Char) (pos : Nat) :
    Except String (Filter × {p : Nat // pos ≤ p}) :=
  match parseAnd e pos with
  | .error msg => .error msg
  | .ok (left, p1) =>
    match orLoop e [left] p1.val with
    | .error msg => .error msg
    | .ok (filters, p2) =>
      .ok ((match filters with
        | [f] => f
        | fs => .or_ fs), ⟨p2.val, Nat.le_trans p1.property p2.property⟩)
termination_by (e.length - pos, 4)
decreasing_by all_goals (simp_wf <;> omega)

/-- The `while` loop of `_parse_or`, accumulating the `filters` list. -/
def orLoop (e : List Char) (acc : List Filter) (pos : Nat) :
    Except String (List Filter × {p : Nat // pos ≤ p}) :=
  let p1 := skipWs e pos
  if h : p1.val < e.length then
    if e.get ⟨p1.val, h⟩ = '|' then
      match parseAnd e (p1.val + 1) with
      | .error msg => .error msg
      | .ok (f, p2) =>
        match orLoop e (acc ++ [f]) p2.val with
        | .error msg => .error msg
        | .ok (fs, p3) =>
          .ok (fs, ⟨p3.val, Nat.le_trans p1.property (Nat.le_trans
            (Nat.le_of_succ_le (Nat.lt_of_lt_of_le (Nat.lt_succ_self p1.val) p2.property))
            p3.property)⟩)
    else .ok (acc, ⟨p1.val, p1.property⟩)
  else .ok (acc, ⟨p1.val, p1.property⟩)
termination_by (e.length - pos, 3)
decreasing_by
  all_goals simp_wf
  all_goals
    first
      | omega
      | (apply Prod.Lex.left
         have hp := (skipWs e pos).property
         omega)

/-- `_parse_and` (`filters.py`): AND binds tighter than OR. -/
def parseAnd (e : List Char) (pos : Nat) :
    Except String (Filter × {p : Nat // pos ≤ p}) :=
  match parseAtom e pos with
  | .error msg => .error msg
  | .ok (left, p1) =>
    match andLoop e [left] p1.val with
    | .error msg => .error msg
    | .ok (filters, p2) =>
      .ok ((match filters with
        | [f] => f
        | fs => .and_ fs), ⟨p2.val, Nat.le_trans p1.property p2.property⟩)
termination_by (e.length - pos, 2)
decreasing_by all_goals (simp_wf <;> omega)

/-- The `while` loop of `_parse_and`. -/
def andLoop (e : List Char) (acc : List Filter) (pos : Nat) :
    Except String (List Filter × {p : Nat // pos ≤ p}) :=
  let p1 := skipWs e pos
  if h : p1.val < e.length then
    if e.get ⟨p1.val, h⟩ = '+' then
      match parseAtom e (p1.val + 1) with
      | .error msg => .error msg
      | .ok (f, p2) =>
        match andLoop e (acc ++ [f]) p2.val with
        | .error msg => .error msg
        | .ok (fs, p3) =>
          .ok (fs, ⟨p3.val, Nat.le_trans p1.property (Nat.le_trans
            (Nat.le_of_succ_le (Nat.lt_of_lt_of_le (Nat.lt_succ_self p1.val) p2.property))
            p3.property)⟩)
    else .ok (acc, ⟨p1.val, p1.property⟩)
  else .ok (acc, ⟨p1.val, p1.property⟩)
termination_by (e.length - pos, 1)
decreasing_by
  all_goals simp_wf
  all_goals
    first
      | omega
      | (apply Prod.Lex.left
         have hp := (skipWs e pos).property
         omega)

/-- `_parse_atom` (`filters.py`): a parenthesized group or a filter
reference. -/
def parseAtom (e : List Char) (pos : Nat) :
    Except String (Filter × {p : Nat // pos ≤ p}) :=
  let p0 := skipWs e pos
  if h : p0.val < e.length then
    if e.get ⟨p0.val, h⟩ = '(' then
      match parseOr e (p0.val + 1) with
      | .error msg => .error msg
      | .ok (f, p1) =>
        let p2 := skipWs e p1.val
        if h2 : p2.val < e.length then
          if e.get ⟨p2.val, h2⟩ = ')' then
            .ok (f, ⟨p2.val + 1, Nat.le_trans p0.property (Nat.le_succ_of_le
              (Nat.le_trans (Nat.le_of_succ_le (Nat.lt_of_lt_of_le
                (Nat.lt_succ_self p0.val) p1.property)) p2.property))⟩)
          else .error "Missing closing parenthesis"
        else .error "Missing closing parenthesis"
    else
      match parseFilterName e p0.val with
      | .error msg => .error msg
      | .ok (f, p1) => .ok (f, ⟨p1.val, Nat.le_trans p0.property p1.property⟩)
  else .error "Unexpected end of expression"
termination_by (e.length - pos, 0)
decreasing_by
  all_goals simp_wf
  all_goals
    first
      | omega
      | (apply Prod.Lex.left
         have hp := (skipWs e pos).property
         omega)

end

/-- `FilterExpressionParser.parse` (`filters.py`). -/
def FilterExpressionParser.parse (e : List Char) : Except String Filter :=
  match parseOr e 0 with
  | .error msg => .error msg
  | .ok (f, p) =>
    let p2 := skipWs e p.val
    if h : p2.val < e.length then
      .error ("Unexpected character at position " ++ toString p2.val ++ ": '"
        ++ String.singleton (e.get ⟨p2.val, h⟩) ++ "'")
    else .ok f

/-- `parse_filter_expression(expr)` (`filters.py`). -/
def parse_filter_expression (expr : String) : Except String Filter :=
  FilterExpressionParser.parse expr.data

/-- The characters of the optional `:`-parameter part of a reference. -/
def parTail : Option (List Char) → List Char
  | none => []
  | some p => ':' :: p

/-- A primitive filter reference as it appears in an expression: a name
and an optional `:`-parameter. -/
def refChars (nm : List Char) (par : Option (List Char)) : List Char :=
  nm ++ parTail par

/-- Syntactic validity of a primitive reference: non-empty name of name
characters, and no parameter character terminates the parameter scan. -/
def ValidRefChars (nm : List Char) (par : Option (List Char)) : Bool :=
  !nm.isEmpty && nm.all isNameChar &&
  (match par with
    | none => true
    | some p => p.all (fun c => !(paramStopChars.contains c)))

/-- The characters that may legally follow a primitive reference inside
the expressions considered here: end of input, a space, an operator or a
closing parenthesis. -/
def RefBoundary (rest : List Char) : Prop :=
  rest = [] ∨ ∃ c t, rest = c :: t ∧ (c = ' ' ∨ c = '+' ∨ c = '|' ∨ c = ')')

/-- Forgets the position-bound proof carried by a parser result, so that
results whose types mention propositionally equal start positions can be
compared at a common, non-dependent type. -/
def stripPos {α : Type} {a : Nat} :
    Except String (α × {p : Nat // a ≤ p}) → Except String (α × Nat)
  | .error msg => .error msg
  | .ok (x, q) => .ok (x, q.val)

/-!
## Concrete fixtures for witnesses and counterexamples
-/

/-- A one-way follow (attribute 2) with id 1. -/
def sampleUser : Following := ⟨1, "alice", 2⟩

/-- A data source whose activity record has posts (total 5, 4 reposts,
last post at timestamp 0) and whose stat record reports 100 followers;
current time 86401 = one day plus one second. -/
def envBase : ContextEnv :=
  ⟨fun _ => ⟨some 100, some 50⟩, fun _ => ⟨false, 5, 4, some 0⟩, 99, [], 86401⟩

/-- A data source whose activity record consists entirely of reposts
(total 4, 4 reposts). -/
def envAllRepost : ContextEnv :=
  ⟨fun _ => ⟨some 100, some 50⟩, fun _ => ⟨false, 4, 4, some 0⟩, 99, [], 86401⟩

/-- A data source reporting exactly 5000 followers and 5000 followings. -/
def envStat5000 : ContextEnv :=
  ⟨fun _ => ⟨some 5000, some 5000⟩, fun _ => ⟨false, 5, 4, some 0⟩, 99, [], 0⟩

/-- A fresh context state with caching disabled
(`CachedDataFetcher()` with no backing store). -/
def emptyState : EvalState := initState ⟨none⟩

/-- The state reached from `emptyState` after the single activity fetch
for `sampleUser` against `envBase`. -/
def stAfterActivity : EvalState :=
  ⟨[], [(1, .activity ⟨false, 5, 4, some 0⟩)], ⟨none⟩, [], [1]⟩

/-!
## Theorems
-/

/-- C6: `get_or_fetch(key, computeFn, ttl)`: with no backing store every
call invokes `computeFn` exactly once and returns its result with no
caching side effect; with a store, a present unexpired key returns the
cached value without calling `computeFn`, and otherwise `computeFn` is
called once, its result stored under the key with expiry `now + ttl`, and
returned. -/
theorem get_or_fetch_spec (cdf : CachedDataFetcher) (now : Int) (key : Key)
    (fetched : CacheValue) (ttl : Int) :
    (cdf.cache = none → cdf.get_or_fetch now key fetched ttl = (fetched, cdf, 1)) ∧
    (∀ c v, cdf.cache = some c → c.get now key = some v →
      cdf.get_or_fetch now key fetched ttl = (v, cdf, 0)) ∧
    (∀ c, cdf.cache = some c → c.get now key = none →
      cdf.get_or_fetch now key fetched ttl =
        (fetched, ⟨some (c.set now key fetched ttl)⟩, 1) ∧
      (∀ t : Int, (c.set now key fetched ttl).get t key =
        if t < now + ttl then some fetched else none)) := by
  refine ⟨fun h => ?_, fun c v hc hv => ?_, fun c hc hv => ⟨?_, fun t => ?_⟩⟩
  · simp [CachedDataFetcher.get_or_fetch, h]
  · simp [CachedDataFetcher.get_or_fetch, hc, hv]
  · simp [CachedDataFetcher.get_or_fetch, hc, hv]
  · simp [CacheState.get, CacheState.set, List.find?]

/-- Witness for C6: all three branches at concrete inputs. -/
theorem get_or_fetch_spec_witness :
    (CachedDataFetcher.get_or_fetch ⟨none⟩ 0 (.user_stat 1) (.stat ⟨some 7, none⟩) 10 =
      (.stat ⟨some 7, none⟩, ⟨none⟩, 1)) ∧
    (CachedDataFetcher.get_or_fetch ⟨some [⟨.user_stat 1, .stat ⟨some 3, none⟩, 5⟩]⟩ 0
      (.user_stat 1) (.stat ⟨some 7, none⟩) 10 =
      (.stat ⟨some 3, none⟩, ⟨some [⟨.user_stat 1, .stat ⟨some 3, none⟩, 5⟩]⟩, 0)) ∧
    (CachedDataFetcher.get_or_fetch ⟨some []⟩ 0 (.user_stat 1) (.stat ⟨some 7, none⟩) 10 =
      (.stat ⟨some 7, none⟩, ⟨some [⟨.user_stat 1, .stat ⟨some 7, none⟩, 10⟩]⟩, 1)) := by
  refine ⟨(get_or_fetch_spec ⟨none⟩ 0 (.user_stat 1) (.stat ⟨some 7, none⟩) 10).1 rfl,
    (get_or_fetch_spec _ 0 (.user_stat 1) (.stat ⟨some 7, none⟩) 10).2.1
      [⟨.user_stat 1, .stat ⟨some 3, none⟩, 5⟩] _ rfl (by decide),
    ((get_or_fetch_spec _ 0 (.user_stat 1) (.stat ⟨some 7, none⟩) 10).2.2
      [] rfl (by decide)).1⟩

/-- C10: the threshold comparisons of `below-followers`, `above-followers`
and `too-many-followings` are strict in both directions: a subject whose
observed stat value equals the threshold matches none of them. -/
theorem threshold_strict_both_directions (N : Int) (u : Following)
    (env : ContextEnv) (st : EvalState) (v : CacheValue) (st₁ : EvalState)
    (hget : get_user_stat env st u.mid = (v, st₁)) :
    ((v.asStat.get .follower).getD 0 = N →
      Filter.matches (BelowFollowersFilter N) u env st = .ok (.no_match, st₁) ∧
      Filter.matches (AboveFollowersFilter N) u env st = .ok (.no_match, st₁)) ∧
    ((v.asStat.get .following).getD 0 = N →
      Filter.matches (TooManyFollowingsFilter N) u env st = .ok (.no_match, st₁)) := by
  constructor
  · intro hv
    constructor
    · simp [BelowFollowersFilter, Filter.matches, hget, hv]
    · simp [AboveFollowersFilter, Filter.matches, hget, hv]
  · intro hv
    simp [TooManyFollowingsFilter, Filter.matches, hget, hv]

/-- The day-count detail of the `inactive` filter never coincides with its
deactivation detail. -/
theorem day_detail_ne_deact (d : Int) :
    ("超过 " ++ toString d ++ " 天未更新") ≠ "账号已注销" := by
  intro h
  have h2 := congrArg String.data h
  rw [String.data_append, String.data_append] at h2
  rw [show ("超过 " : String).data = '超' :: ['过', ' '] from rfl] at h2
  rw [show ("账号已注销" : String).data = '账' :: "号已注销".data from rfl] at h2
  simp [List.cons_append] at h2

/-- The day-count detail of the `inactive` filter never coincides with its
no-posts detail. -/
theorem day_detail_ne_noposts (d : Int) :
    ("超过 " ++ toString d ++ " 天未更新") ≠ "无任何动态" := by
  intro h
  have h2 := congrArg String.data h
  rw [String.data_append, String.data_append] at h2
  rw [show ("超过 " : String).data = '超' :: ['过', ' '] from rfl] at h2
  rw [show ("无任何动态" : String).data = '无' :: "任何动态".data from rfl] at h2
  simp [List.cons_append] at h2

/-- C3 (amended): `Inactive(days)` matches iff the activity record is
deactivated, or has no posts, or has a last-post timestamp whose
whole-day age `(now - last_post_ts) // 86400` exceeds `days`; the detail
text distinguishes the three sub-reasons. -/
theorem inactive_matches_spec (days : Int) (u : Following) (env : ContextEnv)
    (st : EvalState) (v : CacheValue) (a : ActivityRecord) (st₁ : EvalState)
    (hget : get_user_activity env st u.mid = (v, st₁))
    (hact : v.asActivity = .ok a) :
    ∃ r, Filter.matches (.inactive days) u env st = .ok (r, st₁) ∧
      (r.matched = true ↔ a.is_deactivated = true ∨ a.total_dynamics = 0 ∨
        (∃ ts, a.last_post_ts = some ts ∧ days < Int.fdiv (env.now - ts) 86400)) ∧
      (a.is_deactivated = true → r.detail = some "账号已注销") ∧
      (a.is_deactivated = false → a.total_dynamics = 0 → r.detail = some "无任何动态") ∧
      (a.is_deactivated = false → a.total_dynamics ≠ 0 → r.matched = true →
        ∃ ts, a.last_post_ts = some ts ∧
          r.detail = some ("超过 " ++ toString (Int.fdiv (env.now - ts) 86400) ++ " 天未更新")) ∧
      (∀ d : Int, ("超过 " ++ toString d ++ " 天未更新") ≠ "账号已注销" ∧
        ("超过 " ++ toString d ++ " 天未更新") ≠ "无任何动态") ∧
      ("账号已注销" : String) ≠ "无任何动态" := by
  have hdis : ∀ d : Int, ("超过 " ++ toString d ++ " 天未更新") ≠ "账号已注销" ∧
      ("超过 " ++ toString d ++ " 天未更新") ≠ "无任何动态" :=
    fun d => ⟨day_detail_ne_deact d, day_detail_ne_noposts d⟩
  have hdis2 : ("账号已注销" : String) ≠ "无任何动态" := by decide
  cases hd : a.is_deactivated
  · cases ht : a.total_dynamics
    · refine ⟨.match1 "inactive" "无任何动态", ?_, ?_, ?_, ?_, ?_, hdis, hdis2⟩
      · simp [Filter.matches, hget, hact, hd, ht]
      · simp [MatchInfo.match1, ht]
      · simp [hd]
      · simp [MatchInfo.match1]
      · simp [ht]
    · cases hts : a.last_post_ts with
      | none =>
        refine ⟨.no_match, ?_, ?_, ?_, ?_, ?_, hdis, hdis2⟩
        · simp [Filter.matches, hget, hact, hd, ht, hts]
        · simp [MatchInfo.no_match, hd, ht, hts]
        · simp [hd]
        · simp [ht]
        · simp [MatchInfo.no_match]
      | some ts =>
        by_cases hgt : days < Int.fdiv (env.now - ts) 86400
        · refine ⟨.match1 "inactive"
            ("超过 " ++ toString (Int.fdiv (env.now - ts) 86400) ++ " 天未更新"),
            ?_, ?_, ?_, ?_, ?_, hdis, hdis2⟩
          · simp [Filter.matches, hget, hact, hd, ht, hts, hgt]
          · simp [MatchInfo.match1, hts, hgt]
          · simp [hd]
          · simp [ht]
          · exact fun _ _ _ => ⟨ts, rfl, rfl⟩
        · refine ⟨.no_match, ?_, ?_, ?_, ?_, ?_, hdis, hdis2⟩
          · simp [Filter.matches, hget, hact, hd, ht, hts, hgt]
          · simp [MatchInfo.no_match, hd, ht, hts, hgt]
          · simp [hd]
          · simp [ht]
          · simp [MatchInfo.no_match]
  · refine ⟨.match1 "inactive" "账号已注销", ?_, ?_, ?_, ?_, ?_, hdis, hdis2⟩
    · simp [Filter.matches, hget, hact, hd]
    · simp [MatchInfo.match1, hd]
    · simp [MatchInfo.match1]
    · simp [hd]
    · simp [hd]

/-- Witness for C3's amended theorem at a concrete input: days = 0, an
active record whose last post is 86401 seconds old. -/
theorem inactive_matches_spec_witness :
    ∃ r, Filter.matches (.inactive 0) sampleUser envBase emptyState =
        .ok (r, stAfterActivity) ∧
      (r.matched = true ↔ (false = true ∨ (5 : Nat) = 0 ∨
        (∃ ts, (some (0 : Int)) = some ts ∧ (0 : Int) < Int.fdiv (envBase.now - ts) 86400))) ∧
      ((false : Bool) = true → r.detail = some "账号已注销") ∧
      ((false : Bool) = false → (5 : Nat) = 0 → r.detail = some "无任何动态") ∧
      ((false : Bool) = false → (5 : Nat) ≠ 0 → r.matched = true →
        ∃ ts, (some (0 : Int)) = some ts ∧
          r.detail = some ("超过 " ++ toString (Int.fdiv (envBase.now - ts) 86400) ++ " 天未更新")) ∧
      (∀ d : Int, ("超过 " ++ toString d ++ " 天未更新") ≠ "账号已注销" ∧
        ("超过 " ++ toString d ++ " 天未更新") ≠ "无任何动态") ∧
      ("账号已注销" : String) ≠ "无任何动态" :=
  inactive_matches_spec 0 sampleUser envBase emptyState
    (.activity ⟨false, 5, 4, some 0⟩) ⟨false, 5, 4, some 0⟩ stAfterActivity
    (by simp [get_user_activity, sampleUser, envBase, emptyState, initState,
      assocLookup, CachedDataFetcher.get_or_fetch, make_user_activity_key,
      stAfterActivity])
    rfl

/-- Counterexample to C3 as stated: with `days = 1`, a record whose last
post is 86401 seconds old satisfies the claim's condition
`now - last_post_time > days * 86400` (and neither other sub-reason), yet
the code computes `(now - last_post_ts) // 86400 = 1`, which is not `> 1`,
and returns no match. -/
theorem inactive_claim_counterexample :
    (⟨false, 5, 4, some 0⟩ : ActivityRecord).is_deactivated = false ∧
    (⟨false, 5, 4, some 0⟩ : ActivityRecord).total_dynamics ≠ 0 ∧
    (⟨false, 5, 4, some 0⟩ : ActivityRecord).last_post_ts = some 0 ∧
    envBase.client_activity sampleUser.mid = ⟨false, 5, 4, some 0⟩ ∧
    envBase.now - 0 > 1 * 86400 ∧
    Filter.matches (.inactive 1) sampleUser envBase emptyState =
      .ok (MatchInfo.no_match, stAfterActivity) := by
  refine ⟨rfl, by decide, rfl, rfl, by decide, ?_⟩
  have hfd : Int.fdiv (envBase.now - 0) 86400 = 1 := by decide
  simp [Filter.matches, get_user_activity, sampleUser, envBase, emptyState,
    initState, assocLookup, CachedDataFetcher.get_or_fetch,
    make_user_activity_key, CacheValue.asActivity, stAfterActivity, hfd]

/-- The AND loop on a fully matching child list: the accumulators collect
every child's names and non-empty details in evaluation order. -/
theorem andGo_all_matched (fs : List Filter) :
    ∀ (u : Following) (env : ContextEnv) (st : EvalState) (ds ns : List String)
      (rs : List MatchInfo) (st₁ : EvalState),
    evalSeq fs u env st = .ok (rs, st₁) → (∀ r ∈ rs, r.matched = true) →
    andGo u env fs st ds ns =
      .ok (⟨true, joinOpt (ds ++ collectDetails rs), ns ++ collectNames rs⟩, st₁) := by
  induction fs with
  | nil =>
    intro u env st ds ns rs st₁ h hall
    simp [evalSeq] at h
    obtain ⟨rfl, rfl⟩ := h
    simp [andGo, collectDetails, collectNames, joinOpt]
  | cons f rest ih =>
    intro u env st ds ns rs st₁ h hall
    cases hm : Filter.matches f u env st with
    | error e => simp [evalSeq, hm] at h
    | ok p =>
      obtain ⟨r, stm⟩ := p
      cases hs : evalSeq rest u env stm with
      | error e => simp [evalSeq, hm, hs] at h
      | ok q =>
        obtain ⟨rs', st₂⟩ := q
        simp [evalSeq, hm, hs] at h
        obtain ⟨rfl, rfl⟩ := h
        have hr : r.matched = true := hall r (by simp)
        have hrest : ∀ x ∈ rs', x.matched = true := fun x hx => hall x (by simp [hx])
        rw [show andGo u env (f :: rest) st ds ns =
          andGo u env rest stm (ds ++ detailList r.detail) (ns ++ r.filter_names) by
            simp [andGo, hm, hr]]
        rw [ih u env stm _ _ rs' st₂ hs hrest]
        simp [collectDetails, collectNames, List.append_assoc]

/-- The AND loop short-circuits: with a matching prefix and then a
non-matching child, the result is `no_match` in the state reached by that
child, and the remaining children are never evaluated. -/
theorem andGo_short_circuit (fs1 : List Filter) :
    ∀ (f : Filter) (fs2 : List Filter) (u : Following) (env : ContextEnv)
      (st : EvalState) (ds ns : List String) (rs1 : List MatchInfo)
      (st1 : EvalState) (r : MatchInfo) (st2 : EvalState),
    evalSeq fs1 u env st = .ok (rs1, st1) → (∀ x ∈ rs1, x.matched = true) →
    Filter.matches f u env st1 = .ok (r, st2) → r.matched = false →
    andGo u env (fs1 ++ f :: fs2) st ds ns = .ok (MatchInfo.no_match, st2) := by
  induction fs1 with
  | nil =>
    intro f fs2 u env st ds ns rs1 st1 r st2 h hall hm hr
    simp [evalSeq] at h
    obtain ⟨rfl, rfl⟩ := h
    simp [andGo, hm, hr]
  | cons g rest ih =>
    intro f fs2 u env st ds ns rs1 st1 r st2 h hall hm hr
    cases hg : Filter.matches g u env st with
    | error e => simp [evalSeq, hg] at h
    | ok p =>
      obtain ⟨rg, stg⟩ := p
      cases hs : evalSeq rest u env stg with
      | error e => simp [evalSeq, hg, hs] at h
      | ok q =>
        obtain ⟨rs', st₂⟩ := q
        simp [evalSeq, hg, hs] at h
        obtain ⟨rfl, rfl⟩ := h
        have hrg : rg.matched = true := hall rg (by simp)
        rw [show ((g :: rest) ++ f :: fs2) = g :: (rest ++ f :: fs2) by simp]
        rw [show andGo u env (g :: (rest ++ f :: fs2)) st ds ns =
          andGo u env (rest ++ f :: fs2) stg (ds ++ detailList rg.detail)
            (ns ++ rg.filter_names) by
            simp [andGo, hg, hrg]]
        exact ih f fs2 u env stg _ _ rs' _ r st2 hs
          (fun x hx => hall x (by simp [hx])) hm hr

/-- The OR loop evaluates every child and merges the matching ones. -/
theorem orGo_full (fs : List Filter) :
    ∀ (u : Following) (env : ContextEnv) (st : EvalState) (ds ns : List String)
      (rs : List MatchInfo) (st₁ : EvalState),
    evalSeq fs u env st = .ok (rs, st₁) →
    orGo u env fs st ds ns =
      .ok (if (ns ++ collectNames (rs.filter (fun r => r.matched))).isEmpty
        then MatchInfo.no_match
        else ⟨true, joinOpt (ds ++ collectDetails (rs.filter (fun r => r.matched))),
          ns ++ collectNames (rs.filter (fun r => r.matched))⟩, st₁) := by
  induction fs with
  | nil =>
    intro u env st ds ns rs st₁ h
    simp [evalSeq] at h
    obtain ⟨rfl, rfl⟩ := h
    simp [orGo, collectDetails, collectNames, joinOpt]
    split <;> rfl
  | cons f rest ih =>
    intro u env st ds ns rs st₁ h
    cases hm : Filter.matches f u env st with
    | error e => simp [evalSeq, hm] at h
    | ok p =>
      obtain ⟨r, stm⟩ := p
      cases hs : evalSeq rest u env stm with
      | error e => simp [evalSeq, hm, hs] at h
      | ok q =>
        obtain ⟨rs', st₂⟩ := q
        simp [evalSeq, hm, hs] at h
        obtain ⟨rfl, rfl⟩ := h
        cases hr : r.matched with
        | true =>
          rw [show orGo u env (f :: rest) st ds ns =
            orGo u env rest stm (ds ++ detailList r.detail) (ns ++ r.filter_names) by
              simp [orGo, hm, hr]]
          rw [ih u env stm _ _ rs' st₂ hs]
          simp [List.filter, hr, collectDetails, collectNames, List.append_assoc]
        | false =>
          rw [show orGo u env (f :: rest) st ds ns = orGo u env rest stm ds ns by
            simp [orGo, hm, hr]]
          rw [ih u env stm _ _ rs' st₂ hs]
          simp [List.filter, hr]

/-- C1: `AndGroup.matches` evaluates children in order and
short-circuits: the first non-matching child ends evaluation immediately
with a no-match in that child's state (so no later child runs or
fetches); if every child matches, the result is matched with the
children's `filter_names` concatenated in order and the non-empty details
joined with `"; "` in order. -/
theorem and_filter_matches_spec (fs : List Filter) (u : Following)
    (env : ContextEnv) (st : EvalState) :
    (∀ fs1 f fs2 rs1 st1 r st2, fs = fs1 ++ f :: fs2 →
      evalSeq fs1 u env st = .ok (rs1, st1) → (∀ x ∈ rs1, x.matched = true) →
      Filter.matches f u env st1 = .ok (r, st2) → r.matched = false →
      Filter.matches (.and_ fs) u env st = .ok (MatchInfo.no_match, st2)) ∧
    (∀ rs st₁, evalSeq fs u env st = .ok (rs, st₁) →
      (∀ x ∈ rs, x.matched = true) →
      Filter.matches (.and_ fs) u env st =
        .ok (⟨true, joinOpt (collectDetails rs), collectNames rs⟩, st₁)) := by
  constructor
  · intro fs1 f fs2 rs1 st1 r st2 hsplit hseq hall hm hr
    subst hsplit
    rw [show Filter.matches (.and_ (fs1 ++ f :: fs2)) u env st =
      andGo u env (fs1 ++ f :: fs2) st [] [] by simp [Filter.matches]]
    exact andGo_short_circuit fs1 f fs2 u env st [] [] rs1 st1 r st2 hseq hall hm hr
  · intro rs st₁ hseq hall
    rw [show Filter.matches (.and_ fs) u env st = andGo u env fs st [] [] by
      simp [Filter.matches]]
    rw [andGo_all_matched fs u env st [] [] rs st₁ hseq hall]
    simp

/-- Witness for C1: both conjuncts at concrete inputs — a short-circuited
AND whose final state shows the trailing `deactivated` child never
fetched, and a fully matching AND with merged names and details. -/
theorem and_filter_matches_spec_witness :
    Filter.matches (.and_ [.notFollowingBack, .mutualFollow, .deactivated])
      sampleUser envBase emptyState = .ok (MatchInfo.no_match, emptyState) ∧
    Filter.matches (.and_ [.notFollowingBack, .noInteraction])
      sampleUser envBase emptyState =
      .ok (⟨true, joinOpt (collectDetails
          [.match1 "not-following-back" "未回关", .match1 "no-interaction" "无近期互动"]),
        collectNames
          [.match1 "not-following-back" "未回关", .match1 "no-interaction" "无近期互动"]⟩,
        emptyState) := by
  constructor
  · exact (and_filter_matches_spec [.notFollowingBack, .mutualFollow, .deactivated]
      sampleUser envBase emptyState).1 [.notFollowingBack] .mutualFollow
      [.deactivated] [.match1 "not-following-back" "未回关"] emptyState
      MatchInfo.no_match emptyState rfl
      (by simp [evalSeq, Filter.matches, sampleUser, envBase, Following.is_mutual])
      (by simp [MatchInfo.match1])
      (by simp [Filter.matches, sampleUser, envBase, Following.is_mutual])
      rfl
  · exact (and_filter_matches_spec [.notFollowingBack, .noInteraction]
      sampleUser envBase emptyState).2
      [.match1 "not-following-back" "未回关", .match1 "no-interaction" "无近期互动"]
      emptyState
      (by simp [evalSeq, Filter.matches, sampleUser, envBase, Following.is_mutual])
      (by simp [MatchInfo.match1])

/-- C2 (amended): `OrGroup.matches` evaluates every child exactly once in
order (the final state is that of the full sequential evaluation), and
returns the merge over the matching children: no-match iff the matching
children contribute no `filter_names` (in particular whenever no child
matched), else matched with concatenated names and `"; "`-joined
non-empty details in original order. -/
theorem or_filter_matches_spec (fs : List Filter) (u : Following)
    (env : ContextEnv) (st : EvalState) (rs : List MatchInfo) (st₁ : EvalState)
    (hseq : evalSeq fs u env st = .ok (rs, st₁)) :
    Filter.matches (.or_ fs) u env st = .ok (mergeOr rs, st₁) := by
  rw [show Filter.matches (.or_ fs) u env st = orGo u env fs st [] [] by
    simp [Filter.matches]]
  rw [orGo_full fs u env st [] [] rs st₁ hseq]
  simp [mergeOr]

/-- Witness for C2's amended theorem: an OR over `mutual` (no match),
`not-following-back` (match) and `no-interaction` (match) evaluates all
three and merges the two matching children. -/
theorem or_filter_matches_spec_witness :
    Filter.matches (.or_ [.mutualFollow, .notFollowingBack, .noInteraction])
      sampleUser envBase emptyState =
      .ok (mergeOr [MatchInfo.no_match,
        .match1 "not-following-back" "未回关", .match1 "no-interaction" "无近期互动"],
        emptyState) :=
  or_filter_matches_spec [.mutualFollow, .notFollowingBack, .noInteraction]
    sampleUser envBase emptyState
    [MatchInfo.no_match,
      .match1 "not-following-back" "未回关", .match1 "no-interaction" "无近期互动"]
    emptyState
    (by simp [evalSeq, Filter.matches, sampleUser, envBase, Following.is_mutual])

/-- Counterexample to C2 as stated: an OR whose only child is the empty
AND group.  The child matches (`matched = true`), yet — because it
contributes no `filter_names` — the OR returns no-match, refuting
"no-match if and only if no child matched". -/
theorem or_claim_counterexample :
    Filter.matches (.and_ []) sampleUser envBase emptyState =
      .ok (⟨true, none, []⟩, emptyState) ∧
    (⟨true, none, []⟩ : MatchInfo).matched = true ∧
    Filter.matches (.or_ [.and_ []]) sampleUser envBase emptyState =
      .ok (MatchInfo.no_match, emptyState) ∧
    MatchInfo.no_match.matched = false := by
  refine ⟨?_, rfl, ?_, rfl⟩
  · simp [Filter.matches, andGo, joinOpt]
  · simp [Filter.matches, orGo, andGo, joinOpt, MatchInfo.no_match]

/-- `get_or_fetch` under a stat key preserves cache well-formedness. -/
theorem get_or_fetch_wf_stat (cdf : CachedDataFetcher) (now : Int) (mid : Int)
    (v : CacheValue) (ttl : Int) (h : WFCache cdf) :
    WFCache (cdf.get_or_fetch now (make_user_stat_key mid) v ttl).2.1 := by
  obtain ⟨oc⟩ := cdf
  cases oc with
  | none => exact h
  | some c =>
    cases hg : c.get now (make_user_stat_key mid) with
    | some value => simpa [CachedDataFetcher.get_or_fetch, hg] using h
    | none =>
      simp only [CachedDataFetcher.get_or_fetch, hg]
      intro c' hcc entry hentry m hkey
      injection hcc with hcc
      subst hcc
      rcases List.mem_cons.mp hentry with rfl | hmem
      · exact absurd hkey (by simp [make_user_stat_key])
      · exact h c rfl entry hmem m hkey

/-- `get_or_fetch` under an activity key, fed an activity record,
preserves cache well-formedness and returns an activity record. -/
theorem get_or_fetch_wf_activity (cdf : CachedDataFetcher) (now : Int) (mid : Int)
    (a : ActivityRecord) (ttl : Int) (h : WFCache cdf) :
    (cdf.get_or_fetch now (make_user_activity_key mid) (.activity a) ttl).1.isActivityB = true ∧
    WFCache (cdf.get_or_fetch now (make_user_activity_key mid) (.activity a) ttl).2.1 := by
  obtain ⟨oc⟩ := cdf
  cases oc with
  | none => exact ⟨rfl, h⟩
  | some c =>
    cases hg : c.get now (make_user_activity_key mid) with
    | some value =>
      have hval : value.isActivityB = true := by
        simp only [CacheState.get] at hg
        cases hf : List.find? (fun entry => decide (entry.key = make_user_activity_key mid)) c with
        | none =>
          simp only [hf] at hg
          exact Option.noConfusion hg
        | some entry =>
          simp only [hf] at hg
          have hkey : entry.key = make_user_activity_key mid := by
            have := List.find?_some hf
            simpa using this
          have hmem : entry ∈ c := List.mem_of_find?_eq_some hf
          have hent := h c rfl entry hmem mid hkey
          split at hg
          · injection hg with hg; exact hg ▸ hent
          · cases hg
      refine ⟨by simpa [CachedDataFetcher.get_or_fetch, hg] using hval, ?_⟩
      simpa [CachedDataFetcher.get_or_fetch, hg] using h
    | none =>
      simp only [CachedDataFetcher.get_or_fetch, hg]
      refine ⟨rfl, ?_⟩
      intro c' hcc entry hentry m hkey
      injection hcc with hcc
      subst hcc
      rcases List.mem_cons.mp hentry with rfl | hmem
      · rfl
      · exact h c rfl entry hmem m hkey

/-- `get_user_stat` preserves well-formedness: it never writes under an
activity key. -/
theorem get_user_stat_wf (env : ContextEnv) (st : EvalState) (mid : Int)
    (h : WFState st) : WFState (get_user_stat env st mid).2 := by
  simp only [get_user_stat]
  cases hm : assocLookup st.user_stats mid with
  | some v => exact h
  | none =>
    exact ⟨h.1, get_or_fetch_wf_stat st.cache env.now mid
      (.stat (env.client_stat mid)) TTL_USER_STAT h.2⟩

/-- `get_user_activity` preserves well-formedness and, from a well-formed
state, always yields an activity record. -/
theorem get_user_activity_wf (env : ContextEnv) (st : EvalState) (mid : Int)
    (h : WFState st) :
    (get_user_activity env st mid).1.isActivityB = true ∧
    WFState (get_user_activity env st mid).2 := by
  simp only [get_user_activity]
  cases hm : assocLookup st.user_activity mid with
  | some v => exact ⟨h.1 mid v hm, h⟩
  | none =>
    obtain ⟨hval, hcache⟩ := get_or_fetch_wf_activity st.cache env.now mid
      (env.client_activity mid) TTL_USER_ACTIVITY h.2
    refine ⟨hval, ?_, hcache⟩
    intro m v hv
    simp only [assocLookup] at hv
    split at hv
    · exact (Option.some.injEq _ _ ▸ hv) ▸ hval
    · exact h.1 m v hv

/-- The AND loop is total when every child is. -/
theorem andGo_total (fs : List Filter) :
    ∀ (u : Following) (env : ContextEnv) (st : EvalState) (ds ns : List String),
    (∀ f ∈ fs, ∀ st', WFState st' →
      ∃ r st₁, Filter.matches f u env st' = .ok (r, st₁) ∧ WFState st₁) →
    WFState st →
    ∃ r st₁, andGo u env fs st ds ns = .ok (r, st₁) ∧ WFState st₁ := by
  induction fs with
  | nil =>
    intro u env st ds ns _ hwf
    exact ⟨⟨true, if ds.isEmpty then none else some (String.intercalate "; " ds), ns⟩,
      st, by simp [andGo], hwf⟩
  | cons f rest ih =>
    intro u env st ds ns hall hwf
    obtain ⟨r, st₁, hm, hwf₁⟩ := hall f (by simp) st hwf
    cases hr : r.matched with
    | false => exact ⟨MatchInfo.no_match, st₁, by simp [andGo, hm, hr], hwf₁⟩
    | true =>
      obtain ⟨r', st₂, hrec, hwf₂⟩ :=
        ih u env st₁ (ds ++ detailList r.detail) (ns ++ r.filter_names)
          (fun g hg => hall g (by simp [hg])) hwf₁
      exact ⟨r', st₂, by simp [andGo, hm, hr, hrec], hwf₂⟩

/-- The OR loop is total when every child is. -/
theorem orGo_total (fs : List Filter) :
    ∀ (u : Following) (env : ContextEnv) (st : EvalState) (ds ns : List String),
    (∀ f ∈ fs, ∀ st', WFState st' →
      ∃ r st₁, Filter.matches f u env st' = .ok (r, st₁) ∧ WFState st₁) →
    WFState st →
    ∃ r st₁, orGo u env fs st ds ns = .ok (r, st₁) ∧ WFState st₁ := by
  induction fs with
  | nil =>
    intro u env st ds ns _ hwf
    cases hn : ns.isEmpty with
    | true => exact ⟨MatchInfo.no_match, st, by simp [orGo, hn], hwf⟩
    | false =>
      exact ⟨⟨true, if ds.isEmpty then none else some (String.intercalate "; " ds), ns⟩,
        st, by simp [orGo, hn], hwf⟩
  | cons f rest ih =>
    intro u env st ds ns hall hwf
    obtain ⟨r, st₁, hm, hwf₁⟩ := hall f (by simp) st hwf
    cases hr : r.matched with
    | false =>
      obtain ⟨r', st₂, hrec, hwf₂⟩ :=
        ih u env st₁ ds ns (fun g hg => hall g (by simp [hg])) hwf₁
      exact ⟨r', st₂, by simp [orGo, hm, hr, hrec], hwf₂⟩
    | true =>
      obtain ⟨r', st₂, hrec, hwf₂⟩ :=
        ih u env st₁ (ds ++ detailList r.detail) (ns ++ r.filter_names)
          (fun g hg => hall g (by simp [hg])) hwf₁
      exact ⟨r', st₂, by simp [orGo, hm, hr, hrec], hwf₂⟩

/-- Totality of `matches`, by strong induction on the size of the filter
tree. -/
theorem matches_total_aux (n : Nat) :
    ∀ (f : Filter), sizeOf f ≤ n →
    ∀ (u : Following) (env : ContextEnv) (st : EvalState), WFState st →
    ∃ r st₁, Filter.matches f u env st = .ok (r, st₁) ∧ WFState st₁ := by
  induction n using Nat.strong_induction_on with
  | _ n ih =>
    intro f hf u env st hwf
    cases f with
    | notFollowingBack =>
      have heq : Filter.matches .notFollowingBack u env st =
          .ok (if !u.is_mutual then .match1 "not-following-back" "未回关"
            else .no_match, st) := by
        simp only [Filter.matches]
      exact ⟨_, _, heq, hwf⟩
    | mutualFollow =>
      have heq : Filter.matches .mutualFollow u env st =
          .ok (if u.is_mutual then .match1 "mutual" "互相关注" else .no_match, st) := by
        simp only [Filter.matches]
      exact ⟨_, _, heq, hwf⟩
    | thresholdStat fname sf ca lbl thr =>
      cases ca with
      | false =>
        by_cases hcmp : ((get_user_stat env st u.mid).1.asStat.get sf).getD 0 < thr
        · have heq : Filter.matches (.thresholdStat fname sf false lbl thr) u env st =
              .ok (.match1 fname
                (lbl ++ " " ++ toString (((get_user_stat env st u.mid).1.asStat.get sf).getD 0)),
                (get_user_stat env st u.mid).2) := by
            simp [Filter.matches, hcmp]
          exact ⟨_, _, heq, get_user_stat_wf env st u.mid hwf⟩
        · have heq : Filter.matches (.thresholdStat fname sf false lbl thr) u env st =
              .ok (.no_match, (get_user_stat env st u.mid).2) := by
            simp [Filter.matches, hcmp]
          exact ⟨_, _, heq, get_user_stat_wf env st u.mid hwf⟩
      | true =>
        by_cases hcmp : ((get_user_stat env st u.mid).1.asStat.get sf).getD 0 > thr
        · have heq : Filter.matches (.thresholdStat fname sf true lbl thr) u env st =
              .ok (.match1 fname
                (lbl ++ " " ++ toString (((get_user_stat env st u.mid).1.asStat.get sf).getD 0)),
                (get_user_stat env st u.mid).2) := by
            simp [Filter.matches, hcmp]
          exact ⟨_, _, heq, get_user_stat_wf env st u.mid hwf⟩
        · have heq : Filter.matches (.thresholdStat fname sf true lbl thr) u env st =
              .ok (.no_match, (get_user_stat env st u.mid).2) := by
            simp [Filter.matches, hcmp]
          exact ⟨_, _, heq, get_user_stat_wf env st u.mid hwf⟩
    | noInteraction =>
      have heq : Filter.matches .noInteraction u env st =
          .ok (if !(u.mid ∈ env.interacting_users) then
            .match1 "no-interaction" "无近期互动" else .no_match, st) := by
        simp only [Filter.matches]
      exact ⟨_, _, heq, hwf⟩
    | inactive days =>
      obtain ⟨hact, hwf'⟩ := get_user_activity_wf env st u.mid hwf
      cases hv : (get_user_activity env st u.mid).1 with
      | stat s => rw [hv] at hact; cases hact
      | activity a =>
        by_cases hd : a.is_deactivated = true
        · have heq : Filter.matches (.inactive days) u env st =
              .ok (.match1 "inactive" "账号已注销", (get_user_activity env st u.mid).2) := by
            simp [Filter.matches, hv, CacheValue.asActivity, hd]
          exact ⟨_, _, heq, hwf'⟩
        · by_cases ht : a.total_dynamics = 0
          · have heq : Filter.matches (.inactive days) u env st =
                .ok (.match1 "inactive" "无任何动态", (get_user_activity env st u.mid).2) := by
              simp [Filter.matches, hv, CacheValue.asActivity, hd, ht]
            exact ⟨_, _, heq, hwf'⟩
          · cases hts : a.last_post_ts with
            | none =>
              have heq : Filter.matches (.inactive days) u env st =
                  .ok (.no_match, (get_user_activity env st u.mid).2) := by
                simp [Filter.matches, hv, CacheValue.asActivity, hd, ht, hts]
              exact ⟨_, _, heq, hwf'⟩
            | some ts =>
              by_cases hgt : days < Int.fdiv (env.now - ts) 86400
              · have heq : Filter.matches (.inactive days) u env st =
                    .ok (.match1 "inactive"
                      ("超过 " ++ toString (Int.fdiv (env.now - ts) 86400) ++ " 天未更新"),
                      (get_user_activity env st u.mid).2) := by
                  simp [Filter.matches, hv, CacheValue.asActivity, hd, ht, hts, hgt]
                exact ⟨_, _, heq, hwf'⟩
              · have heq : Filter.matches (.inactive days) u env st =
                    .ok (.no_match, (get_user_activity env st u.mid).2) := by
                  simp [Filter.matches, hv, CacheValue.asActivity, hd, ht, hts, hgt]
                exact ⟨_, _, heq, hwf'⟩
    | repostRatioFilter rate =>
      obtain ⟨hact, hwf'⟩ := get_user_activity_wf env st u.mid hwf
      cases hv : (get_user_activity env st u.mid).1 with
      | stat s => rw [hv] at hact; cases hact
      | activity a =>
        by_cases ht : a.total_dynamics = 0
        · have heq : Filter.matches (.repostRatioFilter rate) u env st =
              .ok (.no_match, (get_user_activity env st u.mid).2) := by
            simp [Filter.matches, hv, CacheValue.asActivity, ht]
          exact ⟨_, _, heq, hwf'⟩
        · have hdiv : checkedDivQ (a.repost_count : ℚ) (a.total_dynamics : ℚ) =
              .ok ((a.repost_count : ℚ) / (a.total_dynamics : ℚ)) := by
            simp [checkedDivQ, Nat.cast_eq_zero, ht]
          by_cases hge : (a.repost_count : ℚ) / (a.total_dynamics : ℚ) ≥ rate
          · have heq : Filter.matches (.repostRatioFilter rate) u env st =
                .ok (.match1 "repost-ratio"
                  (toString (Rat.floor ((a.repost_count : ℚ) / (a.total_dynamics : ℚ) * 100))
                    ++ "% 为转发"),
                  (get_user_activity env st u.mid).2) := by
              simp [Filter.matches, hv, CacheValue.asActivity, ht, hdiv, hge]
            exact ⟨_, _, heq, hwf'⟩
          · have heq : Filter.matches (.repostRatioFilter rate) u env st =
                .ok (.no_match, (get_user_activity env st u.mid).2) := by
              simp [Filter.matches, hv, CacheValue.asActivity, ht, hdiv, hge]
            exact ⟨_, _, heq, hwf'⟩
    | deactivated =>
      obtain ⟨hact, hwf'⟩ := get_user_activity_wf env st u.mid hwf
      cases hv : (get_user_activity env st u.mid).1 with
      | stat s => rw [hv] at hact; cases hact
      | activity a =>
        by_cases hd : a.is_deactivated = true
        · have heq : Filter.matches .deactivated u env st =
              .ok (.match1 "deactivated" "账号已注销或不可访问",
                (get_user_activity env st u.mid).2) := by
            simp [Filter.matches, hv, CacheValue.asActivity, hd]
          exact ⟨_, _, heq, hwf'⟩
        · have heq : Filter.matches .deactivated u env st =
              .ok (.no_match, (get_user_activity env st u.mid).2) := by
            simp [Filter.matches, hv, CacheValue.asActivity, hd]
          exact ⟨_, _, heq, hwf'⟩
    | noPosts =>
      obtain ⟨hact, hwf'⟩ := get_user_activity_wf env st u.mid hwf
      cases hv : (get_user_activity env st u.mid).1 with
      | stat s => rw [hv] at hact; cases hact
      | activity a =>
        by_cases hd : (!a.is_deactivated && decide (a.total_dynamics = 0)) = true
        · have heq : Filter.matches .noPosts u env st =
              .ok (.match1 "no-posts" "无任何动态", (get_user_activity env st u.mid).2) := by
            simp [Filter.matches, hv, CacheValue.asActivity, hd]
          exact ⟨_, _, heq, hwf'⟩
        · have heq : Filter.matches .noPosts u env st =
              .ok (.no_match, (get_user_activity env st u.mid).2) := by
            simp [Filter.matches, hv, CacheValue.asActivity, hd]
          exact ⟨_, _, heq, hwf'⟩
    | and_ fs =>
      have hsub : ∀ g ∈ fs, ∀ st', WFState st' →
          ∃ r st₁, Filter.matches g u env st' = .ok (r, st₁) ∧ WFState st₁ := by
        intro g hg st' hwf'
        have hlt : sizeOf g < n := by
          have h1 := List.sizeOf_lt_of_mem hg
          have h2 : sizeOf (Filter.and_ fs) = 1 + sizeOf fs := by simp
          omega
        exact ih (sizeOf g) hlt g (le_refl _) u env st' hwf'
      obtain ⟨r, st₁, hgo, hwf₁⟩ := andGo_total fs u env st [] [] hsub hwf
      exact ⟨r, st₁, by simp [Filter.matches, hgo], hwf₁⟩
    | or_ fs =>
      have hsub : ∀ g ∈ fs, ∀ st', WFState st' →
          ∃ r st₁, Filter.matches g u env st' = .ok (r, st₁) ∧ WFState st₁ := by
        intro g hg st' hwf'
        have hlt : sizeOf g < n := by
          have h1 := List.sizeOf_lt_of_mem hg
          have h2 : sizeOf (Filter.or_ fs) = 1 + sizeOf fs := by simp
          omega
        exact ih (sizeOf g) hlt g (le_refl _) u env st' hwf'
      obtain ⟨r, st₁, hgo, hwf₁⟩ := orGo_total fs u env st [] [] hsub hwf
      exact ⟨r, st₁, by simp [Filter.matches, hgo], hwf₁⟩

/-- C8: every predicate's `matches` is total over any subject and any
well-formed state: it returns a `MatchInfo` (never an error), the
repost-ratio division being guarded by the zero-post check and a missing
stat field reading as the default 0. -/
theorem matches_total_of_wf (f : Filter) (u : Following) (env : ContextEnv)
    (st : EvalState) (hwf : WFState st) :
    ∃ r st₁, Filter.matches f u env st = .ok (r, st₁) ∧ WFState st₁ :=
  matches_total_aux (sizeOf f) f (le_refl _) u env st hwf

/-- Witness for C8: the repost-ratio filter with a zero-post record (the
division guard) and a stat filter against a record with no follower field
both return a result. -/
theorem matches_total_of_wf_witness :
    (∃ r st₁, Filter.matches (.and_ [.repostRatioFilter (1 / 2), BelowFollowersFilter 10])
      sampleUser
      ⟨fun _ => ⟨none, none⟩, fun _ => ⟨false, 0, 0, none⟩, 99, [], 0⟩
      emptyState = .ok (r, st₁) ∧ WFState st₁) :=
  matches_total_of_wf (.and_ [.repostRatioFilter (1 / 2), BelowFollowersFilter 10])
    sampleUser ⟨fun _ => ⟨none, none⟩, fun _ => ⟨false, 0, 0, none⟩, 99, [], 0⟩
    emptyState
    (by constructor
        · intro m v hv
          simp [emptyState, initState, assocLookup] at hv
        · intro c hc
          simp [emptyState, initState] at hc)

/-- Cons preserves presence in a memo map. -/
theorem assocLookup_isSome_cons {α : Type} (k : Int) (v : α) (l : List (Int × α))
    (m : Int) (h : (assocLookup l m).isSome = true) :
    (assocLookup ((k, v) :: l) m).isSome = true := by
  simp only [assocLookup]
  split
  · rfl
  · exact h

/-- A freshly inserted memo entry is present. -/
theorem assocLookup_cons_self {α : Type} (k : Int) (v : α) (l : List (Int × α)) :
    assocLookup ((k, v) :: l) k = some v := by
  simp [assocLookup]

/-- `get_user_stat` preserves the memoization invariant: it fetches only
on a memo miss and then memoizes the id. -/
theorem get_user_stat_inv (env : ContextEnv) (st : EvalState) (mid : Int)
    (h : FetchInv st) : FetchInv (get_user_stat env st mid).2 := by
  simp only [get_user_stat]
  cases hm : assocLookup st.user_stats mid with
  | some v => exact h
  | none =>
    by_cases hcall : (st.cache.get_or_fetch env.now (make_user_stat_key mid)
        (.stat (env.client_stat mid)) TTL_USER_STAT).2.2 = 0
    · simp only [hcall, if_pos]
      refine ⟨fun m => ⟨?_, fun hmem => ?_⟩, h.2⟩
      · rw [List.append_nil]
        exact (h.1 m).1
      · rw [List.append_nil] at hmem
        exact assocLookup_isSome_cons _ _ _ _ ((h.1 m).2 hmem)
    · simp only [hcall, if_neg, if_false]
      refine ⟨fun m => ⟨?_, fun hmem => ?_⟩, h.2⟩
      · rw [List.count_append]
        by_cases hem : m = mid
        · subst hem
          have hnotmem : m ∉ st.stat_fetch_log := by
            intro hmem
            have hs := (h.1 m).2 hmem
            rw [hm] at hs
            cases hs
          have h2 : List.count m [m] = 1 := by simp
          rw [List.count_eq_zero.mpr hnotmem]
          omega
        · have h1 := (h.1 m).1
          have h2 : List.count m [mid] = 0 := by
            simp [List.count_eq_zero, hem]
          omega
      · rw [List.mem_append] at hmem
        rcases hmem with hmem | hmem
        · exact assocLookup_isSome_cons _ _ _ _ ((h.1 m).2 hmem)
        · have hem : m = mid := by simpa using hmem
          subst hem
          rw [assocLookup_cons_self]
          rfl

/-- `get_user_activity` preserves the memoization invariant. -/
theorem get_user_activity_inv (env : ContextEnv) (st : EvalState) (mid : Int)
    (h : FetchInv st) : FetchInv (get_user_activity env st mid).2 := by
  simp only [get_user_activity]
  cases hm : assocLookup st.user_activity mid with
  | some v => exact h
  | none =>
    by_cases hcall : (st.cache.get_or_fetch env.now (make_user_activity_key mid)
        (.activity (env.client_activity mid)) TTL_USER_ACTIVITY).2.2 = 0
    · simp only [hcall, if_pos]
      refine ⟨h.1, fun m => ⟨?_, fun hmem => ?_⟩⟩
      · rw [List.append_nil]
        exact (h.2 m).1
      · rw [List.append_nil] at hmem
        exact assocLookup_isSome_cons _ _ _ _ ((h.2 m).2 hmem)
    · simp only [hcall, if_neg, if_false]
      refine ⟨h.1, fun m => ⟨?_, fun hmem => ?_⟩⟩
      · rw [List.count_append]
        by_cases hem : m = mid
        · subst hem
          have hnotmem : m ∉ st.activity_fetch_log := by
            intro hmem
            have hs := (h.2 m).2 hmem
            rw [hm] at hs
            cases hs
          have h2 : List.count m [m] = 1 := by simp
          rw [List.count_eq_zero.mpr hnotmem]
          omega
        · have h1 := (h.2 m).1
          have h2 : List.count m [mid] = 0 := by
            simp [List.count_eq_zero, hem]
          omega
      · rw [List.mem_append] at hmem
        rcases hmem with hmem | hmem
        · exact assocLookup_isSome_cons _ _ _ _ ((h.2 m).2 hmem)
        · have hem : m = mid := by simpa using hmem
          subst hem
          rw [assocLookup_cons_self]
          rfl

/-- The AND loop preserves the memoization invariant when every child
does. -/
theorem andGo_inv (fs : List Filter) :
    ∀ (u : Following) (env : ContextEnv) (st : EvalState) (ds ns : List String)
      (r : MatchInfo) (st₁ : EvalState),
    (∀ f ∈ fs, ∀ st' r' st₁', Filter.matches f u env st' = .ok (r', st₁') →
      FetchInv st' → FetchInv st₁') →
    andGo u env fs st ds ns = .ok (r, st₁) → FetchInv st → FetchInv st₁ := by
  induction fs with
  | nil =>
    intro u env st ds ns r st₁ _ heq hinv
    simp only [andGo, Except.ok.injEq, Prod.mk.injEq] at heq
    exact heq.2 ▸ hinv
  | cons f rest ih =>
    intro u env st ds ns r st₁ hall heq hinv
    cases hm : Filter.matches f u env st with
    | error e =>
      simp only [andGo, hm] at heq
      exact Except.noConfusion heq
    | ok p =>
      obtain ⟨r₀, stm⟩ := p
      have hinv₁ : FetchInv stm := hall f (by simp) st r₀ stm hm hinv
      cases hr : r₀.matched with
      | false =>
        simp only [andGo, hm, hr, Bool.not_false, if_pos, Except.ok.injEq,
          Prod.mk.injEq] at heq
        exact heq.2 ▸ hinv₁
      | true =>
        simp only [andGo, hm, hr, Bool.not_true, if_neg, if_false] at heq
        exact ih u env stm _ _ r st₁ (fun g hg => hall g (by simp [hg])) heq hinv₁

/-- The OR loop preserves the memoization invariant when every child
does. -/
theorem orGo_inv (fs : List Filter) :
    ∀ (u : Following) (env : ContextEnv) (st : EvalState) (ds ns : List String)
      (r : MatchInfo) (st₁ : EvalState),
    (∀ f ∈ fs, ∀ st' r' st₁', Filter.matches f u env st' = .ok (r', st₁') →
      FetchInv st' → FetchInv st₁') →
    orGo u env fs st ds ns = .ok (r, st₁) → FetchInv st → FetchInv st₁ := by
  induction fs with
  | nil =>
    intro u env st ds ns r st₁ _ heq hinv
    simp only [orGo] at heq
    split at heq <;>
      (simp only [Except.ok.injEq, Prod.mk.injEq] at heq; exact heq.2 ▸ hinv)
  | cons f rest ih =>
    intro u env st ds ns r st₁ hall heq hinv
    cases hm : Filter.matches f u env st with
    | error e =>
      simp only [orGo, hm] at heq
      exact Except.noConfusion heq
    | ok p =>
      obtain ⟨r₀, stm⟩ := p
      have hinv₁ : FetchInv stm := hall f (by simp) st r₀ stm hm hinv
      cases hr : r₀.matched with
      | false =>
        simp only [orGo, hm, hr, if_neg, if_false] at heq
        exact ih u env stm _ _ r st₁ (fun g hg => hall g (by simp [hg])) heq hinv₁
      | true =>
        simp only [orGo, hm, hr, if_pos] at heq
        exact ih u env stm _ _ r st₁ (fun g hg => hall g (by simp [hg])) heq hinv₁

/-- Every `matches` call preserves the memoization invariant (strong
induction on the filter tree). -/
theorem matches_inv_aux (n : Nat) :
    ∀ (f : Filter), sizeOf f ≤ n →
    ∀ (u : Following) (env : ContextEnv) (st : EvalState) (r : MatchInfo)
      (st₁ : EvalState),
    Filter.matches f u env st = .ok (r, st₁) → FetchInv st → FetchInv st₁ := by
  induction n using Nat.strong_induction_on with
  | _ n ih =>
    intro f hf u env st r st₁ heq hinv
    cases f with
    | notFollowingBack =>
      simp only [Filter.matches, Except.ok.injEq, Prod.mk.injEq] at heq
      exact heq.2 ▸ hinv
    | mutualFollow =>
      simp only [Filter.matches, Except.ok.injEq, Prod.mk.injEq] at heq
      exact heq.2 ▸ hinv
    | noInteraction =>
      simp only [Filter.matches, Except.ok.injEq, Prod.mk.injEq] at heq
      exact heq.2 ▸ hinv
    | thresholdStat fname sf ca lbl thr =>
      simp only [Filter.matches, Except.ok.injEq, Prod.mk.injEq] at heq
      exact heq.2 ▸ get_user_stat_inv env st u.mid hinv
    | inactive days =>
      simp only [Filter.matches] at heq
      have hst : st₁ = (get_user_activity env st u.mid).2 := by
        cases hv : (get_user_activity env st u.mid).1.asActivity with
        | error e =>
          simp only [hv] at heq
          exact Except.noConfusion heq
        | ok a =>
          simp only [hv] at heq
          repeat' split at heq
          all_goals (simp only [Except.ok.injEq, Prod.mk.injEq] at heq; exact heq.2.symm)
      exact hst ▸ get_user_activity_inv env st u.mid hinv
    | repostRatioFilter rate =>
      simp only [Filter.matches] at heq
      have hst : st₁ = (get_user_activity env st u.mid).2 := by
        cases hv : (get_user_activity env st u.mid).1.asActivity with
        | error e =>
          simp only [hv] at heq
          exact Except.noConfusion heq
        | ok a =>
          simp only [hv] at heq
          repeat' split at heq
          all_goals
            first
            | exact Except.noConfusion heq
            | (simp only [Except.ok.injEq, Prod.mk.injEq] at heq; exact heq.2.symm)
      exact hst ▸ get_user_activity_inv env st u.mid hinv
    | deactivated =>
      simp only [Filter.matches] at heq
      have hst : st₁ = (get_user_activity env st u.mid).2 := by
        cases hv : (get_user_activity env st u.mid).1.asActivity with
        | error e =>
          simp only [hv] at heq
          exact Except.noConfusion heq
        | ok a =>
          simp only [hv] at heq
          repeat' split at heq
          all_goals (simp only [Except.ok.injEq, Prod.mk.injEq] at heq; exact heq.2.symm)
      exact hst ▸ get_user_activity_inv env st u.mid hinv
    | noPosts =>
      simp only [Filter.matches] at heq
      have hst : st₁ = (get_user_activity env st u.mid).2 := by
        cases hv : (get_user_activity env st u.mid).1.asActivity with
        | error e =>
          simp only [hv] at heq
          exact Except.noConfusion heq
        | ok a =>
          simp only [hv] at heq
          repeat' split at heq
          all_goals (simp only [Except.ok.injEq, Prod.mk.injEq] at heq; exact heq.2.symm)
      exact hst ▸ get_user_activity_inv env st u.mid hinv
    | and_ fs =>
      simp only [Filter.matches] at heq
      refine andGo_inv fs u env st [] [] r st₁ ?_ heq hinv
      intro g hg st' r' st₁' heq' hinv'
      have hlt : sizeOf g < n := by
        have h1 := List.sizeOf_lt_of_mem hg
        have h2 : sizeOf (Filter.and_ fs) = 1 + sizeOf fs := by simp
        omega
      exact ih (sizeOf g) hlt g (le_refl _) u env st' r' st₁' heq' hinv'
    | or_ fs =>
      simp only [Filter.matches] at heq
      refine orGo_inv fs u env st [] [] r st₁ ?_ heq hinv
      intro g hg st' r' st₁' heq' hinv'
      have hlt : sizeOf g < n := by
        have h1 := List.sizeOf_lt_of_mem hg
        have h2 : sizeOf (Filter.or_ fs) = 1 + sizeOf fs := by simp
        omega
      exact ih (sizeOf g) hlt g (le_refl _) u env st' r' st₁' heq' hinv'

/-- Any successful sequence of evaluations preserves the memoization
invariant. -/
theorem runEvals_inv (evals : List (Filter × Following)) :
    ∀ (env : ContextEnv) (st st' : EvalState),
    runEvals evals env st = .ok st' → FetchInv st → FetchInv st' := by
  induction evals with
  | nil =>
    intro env st st' heq hinv
    simp only [runEvals, Except.ok.injEq] at heq
    exact heq ▸ hinv
  | cons fu rest ih =>
    intro env st st' heq hinv
    obtain ⟨f, u⟩ := fu
    cases hm : Filter.matches f u env st with
    | error e =>
      simp only [runEvals, hm] at heq
      exact Except.noConfusion heq
    | ok p =>
      obtain ⟨r, stm⟩ := p
      simp only [runEvals, hm] at heq
      exact ih env stm st' heq
        (matches_inv_aux (sizeOf f) f (le_refl _) u env st r stm hm hinv)

/-- C7: for a given context and user id, the underlying data-source fetch
for that id happens at most once across any sequence of predicate
evaluations in the context's lifetime; after the first access the memo
maps are pure reads (a memo hit returns without touching any state). -/
theorem context_fetch_at_most_once :
    (∀ (evals : List (Filter × Following)) (env : ContextEnv)
      (cdf : CachedDataFetcher) (st' : EvalState),
      runEvals evals env (initState cdf) = .ok st' →
      ∀ m : Int, st'.stat_fetch_log.count m ≤ 1 ∧
        st'.activity_fetch_log.count m ≤ 1) ∧
    (∀ (env : ContextEnv) (st : EvalState) (m : Int) (v : CacheValue),
      assocLookup st.user_stats m = some v → get_user_stat env st m = (v, st)) ∧
    (∀ (env : ContextEnv) (st : EvalState) (m : Int) (v : CacheValue),
      assocLookup st.user_activity m = some v →
      get_user_activity env st m = (v, st)) := by
  refine ⟨fun evals env cdf st' hrun m => ?_, fun env st m v h => ?_, fun env st m v h => ?_⟩
  · have hinv0 : FetchInv (initState cdf) := by
      constructor <;> intro m' <;> simp [initState]
    have hinv := runEvals_inv evals env (initState cdf) st' hrun hinv0
    exact ⟨(hinv.1 m).1, (hinv.2 m).1⟩
  · simp [get_user_stat, h]
  · simp [get_user_activity, h]

/-- Witness for C7: two threshold evaluations against the same id fetch
once (the log contains the id once), and memo hits are pure reads. -/
theorem context_fetch_at_most_once_witness :
    (([1] : List Int).count 1 ≤ 1 ∧ ([] : List Int).count 1 ≤ 1) ∧
    get_user_stat envStat5000
      ⟨[(1, .stat ⟨some 5000, some 5000⟩)], [], ⟨none⟩, [1], []⟩ 1 =
      (.stat ⟨some 5000, some 5000⟩,
        ⟨[(1, .stat ⟨some 5000, some 5000⟩)], [], ⟨none⟩, [1], []⟩) ∧
    get_user_activity envBase stAfterActivity 1 =
      (.activity ⟨false, 5, 4, some 0⟩, stAfterActivity) := by
  refine ⟨context_fetch_at_most_once.1
      [(BelowFollowersFilter 5000, sampleUser), (BelowFollowersFilter 7, sampleUser)]
      envStat5000 ⟨none⟩
      ⟨[(1, .stat ⟨some 5000, some 5000⟩)], [], ⟨none⟩, [1], []⟩ ?_ 1,
    context_fetch_at_most_once.2.1 envStat5000 _ 1 _ (by simp [assocLookup]),
    context_fetch_at_most_once.2.2 envBase stAfterActivity 1 _
      (by simp [stAfterActivity, assocLookup])⟩
  simp [runEvals, Filter.matches, BelowFollowersFilter, get_user_stat, assocLookup,
    CachedDataFetcher.get_or_fetch, make_user_stat_key, initState, sampleUser,
    envStat5000, StatRecord.get, CacheValue.asStat]

/-- A cons-shaped suffix pins down the character at the cursor. -/
theorem drop_cons_parts (e : List Char) (pos : Nat) (c : Char) (t : List Char)
    (h : e.drop pos = c :: t) :
    ∃ hl : pos < e.length, e.get ⟨pos, hl⟩ = c ∧ e.drop (pos + 1) = t := by
  have hlt : pos < e.length := by
    by_contra hge
    rw [List.drop_eq_nil_of_le (Nat.le_of_not_lt hge)] at h
    cases h
  refine ⟨hlt, ?_, ?_⟩
  · have h2 : (e.drop pos).head? = some c := by rw [h]; rfl
    rw [List.head?_drop] at h2
    simp [List.getElem?_eq_getElem hlt] at h2
    simp [List.get_eq_getElem, h2]
  · have h3 : (e.drop pos).drop 1 = e.drop (pos + 1) := List.drop_drop 1 pos e
    rw [← h3, h]
    rfl

/-- Dropping past a known suffix prefix leaves the rest. -/
theorem drop_append_of_drop (e : List Char) (pos : Nat) (l rest : List Char)
    (h : e.drop pos = l ++ rest) : e.drop (pos + l.length) = rest := by
  have h3 : (e.drop pos).drop l.length = e.drop (pos + l.length) :=
    List.drop_drop l.length pos e
  rw [← h3, h, List.drop_left]

/-- The scanning loop consumes exactly a maximal run of accepted
characters. -/
theorem scanWhile_val (test : Char → Bool) (e : List Char) :
    ∀ (pos : Nat) (run rest : List Char),
    e.drop pos = run ++ rest →
    (∀ c ∈ run, test c = true) →
    (rest = [] ∨ ∃ c t, rest = c :: t ∧ test c = false) →
    (scanWhile test e pos).val = pos + run.length := by
  intro pos run
  induction run generalizing pos with
  | nil =>
    intro rest hdrop _ hstop
    rw [List.nil_append] at hdrop
    rcases hstop with rfl | ⟨c, t, rfl, hc⟩
    · have hge : e.length ≤ pos := List.drop_eq_nil_iff.mp hdrop
      rw [scanWhile, dif_neg (Nat.not_lt.mpr hge)]
      rfl
    · obtain ⟨hl, hget, _⟩ := drop_cons_parts e pos c t hdrop
      rw [scanWhile, dif_pos hl, hget, if_neg (by rw [hc]; exact Bool.false_ne_true)]
      rfl
  | cons d run' ih =>
    intro rest hdrop hrun hstop
    rw [List.cons_append] at hdrop
    obtain ⟨hl, hget, hdrop'⟩ := drop_cons_parts e pos d (run' ++ rest) hdrop
    rw [scanWhile, dif_pos hl, hget, if_pos (hrun d (by simp))]
    have := ih (pos + 1) rest hdrop' (fun c hc => hrun c (by simp [hc])) hstop
    simp only [this]
    simp [List.length_cons]
    omega

/-- Skipping whitespace consumes exactly a maximal whitespace run. -/
theorem skipWs_val (e : List Char) (pos : Nat) (ws rest : List Char)
    (hdrop : e.drop pos = ws ++ rest)
    (hws : ∀ c ∈ ws, wsChars.contains c = true)
    (hstop : rest = [] ∨ ∃ c t, rest = c :: t ∧ wsChars.contains c = false) :
    (skipWs e pos).val = pos + ws.length :=
  scanWhile_val (fun c => wsChars.contains c) e pos ws rest hdrop hws hstop

/-- A slice over a known suffix recovers it. -/
theorem slice_of_drop (e : List Char) (a : Nat) (l rest : List Char)
    (h : e.drop a = l ++ rest) : slice e a (a + l.length) = l := by
  rw [slice, h, Nat.add_sub_cancel_left, List.take_left]

/-- A name character is not whitespace. -/
theorem name_not_ws (c : Char) (h : isNameChar c = true) :
    wsChars.contains c = false := by
  have h1 : c ≠ ' ' := fun hc => absurd h (by subst hc; decide)
  have h2 : c ≠ '\t' := fun hc => absurd h (by subst hc; decide)
  have h3 : c ≠ '\n' := fun hc => absurd h (by subst hc; decide)
  simp [wsChars, h1, h2, h3]

/-- A name character is not `'('`. -/
theorem name_not_lparen (c : Char) (h : isNameChar c = true) : c ≠ '(' :=
  fun hc => absurd h (by subst hc; decide)

/-- The parameter-part scanner finds no parameter when the next character
is not a colon (or input ends). -/
theorem parseParamPart_none (e : List Char) (pos : Nat) (rest : List Char)
    (hdrop : e.drop pos = rest)
    (hstop : rest = [] ∨ ∃ c t, rest = c :: t ∧ c ≠ ':') :
    parseParamPart e pos = (none, ⟨pos, Nat.le_refl pos⟩) := by
  rcases hstop with rfl | ⟨c, t, rfl, hc⟩
  · have hge : e.length ≤ pos := List.drop_eq_nil_iff.mp hdrop
    rw [parseParamPart, dif_neg (Nat.not_lt.mpr hge)]
  · obtain ⟨hl, hget, _⟩ := drop_cons_parts e pos c t hdrop
    rw [parseParamPart, dif_pos hl, hget, if_neg hc]

/-- The parameter-part scanner consumes `':'` and the full parameter
run. -/
theorem parseParamPart_some (e : List Char) (pos : Nat) (p rest : List Char)
    (hdrop : e.drop pos = ':' :: (p ++ rest))
    (hp : ∀ c ∈ p, paramStopChars.contains c = false)
    (hstop : rest = [] ∨ ∃ c t, rest = c :: t ∧ paramStopChars.contains c = true) :
    parseParamPart e pos =
      (some (String.mk p), ⟨pos + 1 + p.length, by omega⟩) := by
  obtain ⟨hl, hget, hdrop'⟩ := drop_cons_parts e pos ':' (p ++ rest) hdrop
  have hscan : (scanWhile (fun c => !(paramStopChars.contains c)) e (pos + 1)).val =
      pos + 1 + p.length := by
    refine scanWhile_val _ e (pos + 1) p rest hdrop' ?_ ?_
    · intro c hc
      rw [hp c hc]
      rfl
    · rcases hstop with rfl | ⟨c, t, rfl, hc⟩
      · exact Or.inl rfl
      · exact Or.inr ⟨c, t, rfl, by rw [hc]; rfl⟩
  have hslice : slice e (pos + 1) (pos + 1 + p.length) = p :=
    slice_of_drop e (pos + 1) p rest hdrop'
  rw [parseParamPart, dif_pos hl, hget, if_pos rfl]
  refine Prod.ext ?_ (Subtype.ext ?_)
  · dsimp only
    rw [hscan, hslice]
  · dsimp only
    rw [hscan]

/-- `_parse_filter_name` on (whitespace +) a valid primitive reference
followed by a boundary: it consumes exactly the reference and builds the
registry's filter. -/
theorem parseFilterName_ref (e : List Char) (pos : Nat) (ws nm : List Char)
    (par : Option (List Char)) (rest : List Char) (f : Filter)
    (hdrop : e.drop pos = ws ++ (refChars nm par ++ rest))
    (hws : ∀ c ∈ ws, wsChars.contains c = true)
    (hv : ValidRefChars nm par = true)
    (hrest : RefBoundary rest)
    (hcreate : registryCreate (String.mk nm) (par.map String.mk) = .ok f) :
    ∃ q : {p : Nat // pos ≤ p}, parseFilterName e pos = .ok (f, q) ∧
      q.val = pos + ws.length + (refChars nm par).length := by
  have hvparts : nm.isEmpty = false ∧ (∀ c ∈ nm, isNameChar c = true) ∧
      (∀ p, par = some p → ∀ c ∈ p, paramStopChars.contains c = false) := by
    cases par with
    | none =>
      simp only [ValidRefChars, Bool.and_true, Bool.and_eq_true, Bool.not_eq_true',
        List.all_eq_true] at hv
      exact ⟨hv.1, hv.2, fun p hp => by cases hp⟩
    | some p =>
      simp only [ValidRefChars, Bool.and_eq_true, Bool.not_eq_true',
        List.all_eq_true] at hv
      exact ⟨hv.1.1, hv.1.2, fun p' hp' c hc => by
        cases hp'
        simpa using hv.2 c hc⟩
  obtain ⟨hne, hnc, hpc⟩ := hvparts
  obtain ⟨c0, nm', hnm⟩ : ∃ c0 nm', nm = c0 :: nm' := by
    cases nm with
    | nil => simp at hne
    | cons c0 nm' => exact ⟨c0, nm', rfl⟩
  have hc0 : isNameChar c0 = true := hnc c0 (by rw [hnm]; simp)
  have ht0 : refChars nm par ++ rest = c0 :: (nm' ++ (parTail par ++ rest)) := by
    rw [refChars, hnm]
    simp [List.append_assoc]
  have hskip : (skipWs e pos).val = pos + ws.length := by
    refine skipWs_val e pos ws (refChars nm par ++ rest) hdrop hws ?_
    exact Or.inr ⟨c0, _, ht0, name_not_ws c0 hc0⟩
  have hdrop1 : e.drop (pos + ws.length) = refChars nm par ++ rest :=
    drop_append_of_drop e pos ws _ hdrop
  have hdrop1' : e.drop (pos + ws.length) = nm ++ (parTail par ++ rest) := by
    rw [hdrop1, refChars, List.append_assoc]
  have hscan : (scanWhile isNameChar e (pos + ws.length)).val =
      pos + ws.length + nm.length := by
    refine scanWhile_val isNameChar e (pos + ws.length) nm _ hdrop1' hnc ?_
    cases par with
    | some p => exact Or.inr ⟨':', p ++ rest, by simp [parTail], by decide⟩
    | none =>
      simp only [parTail, List.nil_append]
      rcases hrest with rfl | ⟨c, t, rfl, hc⟩
      · exact Or.inl rfl
      · refine Or.inr ⟨c, t, rfl, ?_⟩
        rcases hc with rfl | rfl | rfl | rfl <;> decide
  have hslice : slice e (pos + ws.length) (pos + ws.length + nm.length) = nm :=
    slice_of_drop e (pos + ws.length) nm _ hdrop1'
  have hdrop2 : e.drop (pos + ws.length + nm.length) = parTail par ++ rest :=
    drop_append_of_drop e (pos + ws.length) nm _ hdrop1'
  have hsl : slice e (skipWs e pos).val (scanWhile isNameChar e (skipWs e pos).val).val = nm := by
    rw [hskip, hscan]
    exact hslice
  cases par with
  | none =>
    have hpp : parseParamPart e (pos + ws.length + nm.length) =
        (none, ⟨pos + ws.length + nm.length, Nat.le_refl _⟩) := by
      refine parseParamPart_none e _ rest (by simpa [parTail] using hdrop2) ?_
      rcases hrest with rfl | ⟨c, t, rfl, hc⟩
      · exact Or.inl rfl
      · refine Or.inr ⟨c, t, rfl, ?_⟩
        rcases hc with rfl | rfl | rfl | rfl <;> decide
    have hpp1 : (parseParamPart e (scanWhile isNameChar e (skipWs e pos).val).val).1 = none := by
      rw [hskip, hscan, hpp]
    have hpp2 : ((parseParamPart e (scanWhile isNameChar e (skipWs e pos).val).val).2).val =
        pos + ws.length + nm.length := by
      rw [hskip, hscan, hpp]
    simp only [Option.map_none'] at hcreate
    refine ⟨⟨pos + ws.length + nm.length, by omega⟩, ?_, ?_⟩
    · simp only [parseFilterName, hsl, hne, Bool.false_eq_true, if_false, hpp1, hcreate]
      exact congrArg Except.ok (Prod.ext rfl (Subtype.ext hpp2))
    · simp [refChars, parTail]
  | some p =>
    have hpp : parseParamPart e (pos + ws.length + nm.length) =
        (some (String.mk p), ⟨pos + ws.length + nm.length + 1 + p.length, by omega⟩) := by
      refine parseParamPart_some e _ p rest (by simpa [parTail] using hdrop2)
        (hpc p rfl) ?_
      rcases hrest with rfl | ⟨c, t, rfl, hc⟩
      · exact Or.inl rfl
      · refine Or.inr ⟨c, t, rfl, ?_⟩
        rcases hc with rfl | rfl | rfl | rfl <;> decide
    have hpp1 : (parseParamPart e (scanWhile isNameChar e (skipWs e pos).val).val).1 =
        some (String.mk p) := by
      rw [hskip, hscan, hpp]
    have hpp2 : ((parseParamPart e (scanWhile isNameChar e (skipWs e pos).val).val).2).val =
        pos + ws.length + nm.length + 1 + p.length := by
      rw [hskip, hscan, hpp]
    simp only [Option.map_some'] at hcreate
    refine ⟨⟨pos + ws.length + nm.length + 1 + p.length, by omega⟩, ?_, ?_⟩
    · simp only [parseFilterName, hsl, hne, Bool.false_eq_true, if_false, hpp1, hcreate]
      exact congrArg Except.ok (Prod.ext rfl (Subtype.ext hpp2))
    · simp [refChars, parTail]
      omega

/-- A valid reference starts with a name character. -/
theorem refChars_head (nm : List Char) (par : Option (List Char)) (rest : List Char)
    (hv : ValidRefChars nm par = true) :
    ∃ c0 t0, refChars nm par ++ rest = c0 :: t0 ∧ isNameChar c0 = true := by
  simp only [ValidRefChars, Bool.and_eq_true, Bool.not_eq_true',
    List.all_eq_true] at hv
  obtain ⟨⟨hne, hnc⟩, _⟩ := hv
  cases nm with
  | nil => simp at hne
  | cons c0 nm' =>
    refine ⟨c0, nm' ++ (parTail par ++ rest), ?_, ?_⟩
    · rw [refChars]
      simp [List.append_assoc]
    · exact hnc c0 (by simp)

/-- Transport of a position-indexed parser along a propositional equality
of start positions, at the proof-erased result type. -/
theorem stripPos_congr {α : Type}
    (g : (s : Nat) → Except String (α × {p : Nat // s ≤ p}))
    {X Y : Nat} (h : X = Y) : stripPos (g X) = stripPos (g Y) := by
  subst h
  rfl

/-- `_parse_atom` on (whitespace +) a primitive reference: it dispatches
to `_parse_filter_name`. -/
theorem parseAtom_ref (e : List Char) (pos : Nat) (ws nm : List Char)
    (par : Option (List Char)) (rest : List Char) (f : Filter)
    (hdrop : e.drop pos = ws ++ (refChars nm par ++ rest))
    (hws : ∀ c ∈ ws, wsChars.contains c = true)
    (hv : ValidRefChars nm par = true)
    (hrest : RefBoundary rest)
    (hcreate : registryCreate (String.mk nm) (par.map String.mk) = .ok f) :
    ∃ q : {p : Nat // pos ≤ p}, parseAtom e pos = .ok (f, q) ∧
      q.val = pos + ws.length + (refChars nm par).length := by
  obtain ⟨c0, t0, ht0, hc0⟩ := refChars_head nm par rest hv
  have hskip : (skipWs e pos).val = pos + ws.length :=
    skipWs_val e pos ws _ hdrop hws (Or.inr ⟨c0, t0, ht0, name_not_ws c0 hc0⟩)
  have hskipS : skipWs e pos = ⟨pos + ws.length, by omega⟩ := Subtype.ext hskip
  have hdrop1 : e.drop (pos + ws.length) = refChars nm par ++ rest :=
    drop_append_of_drop e pos ws _ hdrop
  obtain ⟨hlt, hget, _⟩ := drop_cons_parts e (pos + ws.length) c0 t0 (by rw [hdrop1, ht0])
  obtain ⟨q1, hq1, hq1v⟩ := parseFilterName_ref e (pos + ws.length) [] nm par rest f
    (by simpa using hdrop1) (by simp) hv hrest hcreate
  refine ⟨⟨pos + ws.length + (refChars nm par).length, by omega⟩, ?_, rfl⟩
  rw [parseAtom]
  split
  · split
    · rename_i h hpar
      have hfin : (⟨(skipWs e pos).val, h⟩ : Fin e.length) =
          ⟨pos + ws.length, hlt⟩ := by
        rw [Fin.mk.injEq]
        exact hskip
      rw [hfin, hget] at hpar
      exact absurd hpar (name_not_lparen c0 hc0)
    · split
      · rename_i msg herr
        have hs := congrArg stripPos herr
        rw [stripPos_congr (parseFilterName e) hskip, hq1] at hs
        simp [stripPos] at hs
      · rename_i f1 p1 hok
        have hs := congrArg stripPos hok
        rw [stripPos_congr (parseFilterName e) hskip, hq1] at hs
        simp only [stripPos, Except.ok.injEq, Prod.mk.injEq] at hs
        obtain ⟨hf, hp⟩ := hs
        subst hf
        refine congrArg Except.ok (Prod.ext rfl (Subtype.ext ?_))
        rw [← hp, hq1v]
        simp
  · rename_i h
    rw [hskip] at h
    exact absurd hlt h

/-- The AND loop stops (skipping whitespace) at end of input or any
character other than `'+'`. -/
theorem andLoop_stop (e : List Char) (acc : List Filter) (pos : Nat)
    (ws rest : List Char)
    (hdrop : e.drop pos = ws ++ rest)
    (hws : ∀ c ∈ ws, wsChars.contains c = true)
    (hstop : rest = [] ∨ ∃ c t, rest = c :: t ∧ wsChars.contains c = false ∧ c ≠ '+') :
    andLoop e acc pos = .ok (acc, ⟨pos + ws.length, by omega⟩) := by
  have hskip : (skipWs e pos).val = pos + ws.length := by
    refine skipWs_val e pos ws rest hdrop hws ?_
    rcases hstop with rfl | ⟨c, t, rfl, hc, _⟩
    · exact Or.inl rfl
    · exact Or.inr ⟨c, t, rfl, hc⟩
  have hskipS : skipWs e pos = ⟨pos + ws.length, by omega⟩ := Subtype.ext hskip
  have hdrop1 : e.drop (pos + ws.length) = rest := drop_append_of_drop e pos ws rest hdrop
  rw [andLoop]
  simp only [hskipS]
  rcases hstop with rfl | ⟨c, t, rfl, _, hc⟩
  · have hge : e.length ≤ pos + ws.length := List.drop_eq_nil_iff.mp hdrop1
    rw [dif_neg (Nat.not_lt.mpr hge)]
  · obtain ⟨hlt, hget, _⟩ := drop_cons_parts e (pos + ws.length) c t hdrop1
    rw [dif_pos hlt, hget, if_neg hc]

/-- The AND loop consumes (whitespace and) `'+'`, parses the next atom and
continues. -/
theorem andLoop_step (e : List Char) (acc : List Filter) (pos : Nat)
    (ws tail : List Char) (f : Filter)
    (qa : {p : Nat // pos + ws.length + 1 ≤ p}) (fs : List Filter)
    (qb : {p : Nat // qa.val ≤ p})
    (hdrop : e.drop pos = ws ++ ('+' :: tail))
    (hws : ∀ c ∈ ws, wsChars.contains c = true)
    (hatom : parseAtom e (pos + ws.length + 1) = .ok (f, ⟨qa.val, by omega⟩))
    (hloop : andLoop e (acc ++ [f]) qa.val = .ok (fs, qb)) :
    andLoop e acc pos = .ok (fs, ⟨qb.val,
      Nat.le_trans (Nat.le_trans (by omega : pos ≤ pos + ws.length + 1) qa.property)
        qb.property⟩) := by
  have hskip : (skipWs e pos).val = pos + ws.length :=
    skipWs_val e pos ws _ hdrop hws (Or.inr ⟨'+', tail, rfl, by decide⟩)
  have hskipS : skipWs e pos = ⟨pos + ws.length, by omega⟩ := Subtype.ext hskip
  have hdrop1 : e.drop (pos + ws.length) = '+' :: tail :=
    drop_append_of_drop e pos ws _ hdrop
  obtain ⟨hlt, hget, _⟩ := drop_cons_parts e (pos + ws.length) '+' tail hdrop1
  rw [andLoop]
  split
  · split
    · split
      · rename_i msg herr
        have hs := congrArg stripPos herr
        rw [stripPos_congr (parseAtom e) (by omega : (skipWs e pos).val + 1 =
          pos + ws.length + 1), hatom] at hs
        simp [stripPos] at hs
      · rename_i f2 p2 hok
        have hs := congrArg stripPos hok
        rw [stripPos_congr (parseAtom e) (by omega : (skipWs e pos).val + 1 =
          pos + ws.length + 1), hatom] at hs
        simp only [stripPos, Except.ok.injEq, Prod.mk.injEq] at hs
        obtain ⟨hf, hp2⟩ := hs
        subst hf
        split
        · rename_i msg herr2
          have hs2 := congrArg stripPos herr2
          rw [stripPos_congr (andLoop e (acc ++ [f])) hp2.symm, hloop] at hs2
          simp [stripPos] at hs2
        · rename_i fs3 p3 hok2
          have hs2 := congrArg stripPos hok2
          rw [stripPos_congr (andLoop e (acc ++ [f])) hp2.symm, hloop] at hs2
          simp only [stripPos, Except.ok.injEq, Prod.mk.injEq] at hs2
          obtain ⟨hfs, hp3⟩ := hs2
          subst hfs
          exact congrArg Except.ok (Prod.ext rfl (Subtype.ext hp3.symm))
    · rename_i h hne
      have hfin : (⟨(skipWs e pos).val, h⟩ : Fin e.length) =
          ⟨pos + ws.length, hlt⟩ := by
        rw [Fin.mk.injEq]
        exact hskip
      rw [hfin, hget] at hne
      exact absurd rfl hne
  · rename_i h
    rw [hskip] at h
    exact absurd hlt h

/-- The OR loop stops (skipping whitespace) at end of input or any
character other than `'|'`. -/
theorem orLoop_stop (e : List Char) (acc : List Filter) (pos : Nat)
    (ws rest : List Char)
    (hdrop : e.drop pos = ws ++ rest)
    (hws : ∀ c ∈ ws, wsChars.contains c = true)
    (hstop : rest = [] ∨ ∃ c t, rest = c :: t ∧ wsChars.contains c = false ∧ c ≠ '|') :
    orLoop e acc pos = .ok (acc, ⟨pos + ws.length, by omega⟩) := by
  have hskip : (skipWs e pos).val = pos + ws.length := by
    refine skipWs_val e pos ws rest hdrop hws ?_
    rcases hstop with rfl | ⟨c, t, rfl, hc, _⟩
    · exact Or.inl rfl
    · exact Or.inr ⟨c, t, rfl, hc⟩
  have hskipS : skipWs e pos = ⟨pos + ws.length, by omega⟩ := Subtype.ext hskip
  have hdrop1 : e.drop (pos + ws.length) = rest := drop_append_of_drop e pos ws rest hdrop
  rw [orLoop]
  simp only [hskipS]
  rcases hstop with rfl | ⟨c, t, rfl, _, hc⟩
  · have hge : e.length ≤ pos + ws.length := List.drop_eq_nil_iff.mp hdrop1
    rw [dif_neg (Nat.not_lt.mpr hge)]
  · obtain ⟨hlt, hget, _⟩ := drop_cons_parts e (pos + ws.length) c t hdrop1
    rw [dif_pos hlt, hget, if_neg hc]

/-- The OR loop consumes (whitespace and) `'|'`, parses the next AND
expression and continues. -/
theorem orLoop_step (e : List Char) (acc : List Filter) (pos : Nat)
    (ws tail : List Char) (f : Filter)
    (qa : {p : Nat // pos + ws.length + 1 ≤ p}) (fs : List Filter)
    (qb : {p : Nat // qa.val ≤ p})
    (hdrop : e.drop pos = ws ++ ('|' :: tail))
    (hws : ∀ c ∈ ws, wsChars.contains c = true)
    (hand : parseAnd e (pos + ws.length + 1) = .ok (f, ⟨qa.val, by omega⟩))
    (hloop : orLoop e (acc ++ [f]) qa.val = .ok (fs, qb)) :
    orLoop e acc pos = .ok (fs, ⟨qb.val,
      Nat.le_trans (Nat.le_trans (by omega : pos ≤ pos + ws.length + 1) qa.property)
        qb.property⟩) := by
  have hskip : (skipWs e pos).val = pos + ws.length :=
    skipWs_val e pos ws _ hdrop hws (Or.inr ⟨'|', tail, rfl, by decide⟩)
  have hskipS : skipWs e pos = ⟨pos + ws.length, by omega⟩ := Subtype.ext hskip
  have hdrop1 : e.drop (pos + ws.length) = '|' :: tail :=
    drop_append_of_drop e pos ws _ hdrop
  obtain ⟨hlt, hget, _⟩ := drop_cons_parts e (pos + ws.length) '|' tail hdrop1
  rw [orLoop]
  split
  · split
    · split
      · rename_i msg herr
        have hs := congrArg stripPos herr
        rw [stripPos_congr (parseAnd e) (by omega : (skipWs e pos).val + 1 =
          pos + ws.length + 1), hand] at hs
        simp [stripPos] at hs
      · rename_i f2 p2 hok
        have hs := congrArg stripPos hok
        rw [stripPos_congr (parseAnd e) (by omega : (skipWs e pos).val + 1 =
          pos + ws.length + 1), hand] at hs
        simp only [stripPos, Except.ok.injEq, Prod.mk.injEq] at hs
        obtain ⟨hf, hp2⟩ := hs
        subst hf
        split
        · rename_i msg herr2
          have hs2 := congrArg stripPos herr2
          rw [stripPos_congr (orLoop e (acc ++ [f])) hp2.symm, hloop] at hs2
          simp [stripPos] at hs2
        · rename_i fs3 p3 hok2
          have hs2 := congrArg stripPos hok2
          rw [stripPos_congr (orLoop e (acc ++ [f])) hp2.symm, hloop] at hs2
          simp only [stripPos, Except.ok.injEq, Prod.mk.injEq] at hs2
          obtain ⟨hfs, hp3⟩ := hs2
          subst hfs
          exact congrArg Except.ok (Prod.ext rfl (Subtype.ext hp3.symm))
    · rename_i h hne
      have hfin : (⟨(skipWs e pos).val, h⟩ : Fin e.length) =
          ⟨pos + ws.length, hlt⟩ := by
        rw [Fin.mk.injEq]
        exact hskip
      rw [hfin, hget] at hne
      exact absurd rfl hne
  · rename_i h
    rw [hskip] at h
    exact absurd hlt h

/-- Dropping one more element past a known cons decomposition. -/
theorem drop_of_drop_cons (e : List Char) (pos : Nat) (c : Char) (t : List Char)
    (h : e.drop pos = c :: t) : e.drop (pos + 1) = t := by
  obtain ⟨_, _, h3⟩ := drop_cons_parts e pos c t h
  exact h3

/-- Running `_parse_and` given results for its leading atom and for its
accumulation loop. -/
theorem parseAnd_run (e : List Char) (pos : Nat) (f1 : Filter)
    (q1 : {p : Nat // pos ≤ p}) (fs : List Filter) (q2 : {p : Nat // q1.val ≤ p})
    (h1 : parseAtom e pos = .ok (f1, q1))
    (h2 : andLoop e [f1] q1.val = .ok (fs, q2)) :
    parseAnd e pos = .ok ((match fs with | [f] => f | fs => Filter.and_ fs),
      ⟨q2.val, Nat.le_trans q1.property q2.property⟩) := by
  rw [parseAnd]
  split
  · rename_i msg herr
    rw [h1] at herr
    exact Except.noConfusion herr
  · rename_i f2 p1 hok
    rw [h1] at hok
    simp only [Except.ok.injEq, Prod.mk.injEq] at hok
    obtain ⟨hf, hq⟩ := hok
    subst hf
    subst hq
    split
    · rename_i msg herr2
      rw [h2] at herr2
      exact Except.noConfusion herr2
    · rename_i fs2 p2 hok2
      rw [h2] at hok2
      simp only [Except.ok.injEq, Prod.mk.injEq] at hok2
      obtain ⟨hfs, hq2⟩ := hok2
      subst hfs
      subst hq2
      cases fs with
      | nil => exact congrArg Except.ok (Prod.ext rfl (Subtype.ext rfl))
      | cons f0 fs0 =>
        cases fs0 with
        | nil => exact congrArg Except.ok (Prod.ext rfl (Subtype.ext rfl))
        | cons f3 fs1 => exact congrArg Except.ok (Prod.ext rfl (Subtype.ext rfl))

/-- Running `_parse_or` given results for its leading AND expression and
for its accumulation loop. -/
theorem parseOr_run (e : List Char) (pos : Nat) (f1 : Filter)
    (q1 : {p : Nat // pos ≤ p}) (fs : List Filter) (q2 : {p : Nat // q1.val ≤ p})
    (h1 : parseAnd e pos = .ok (f1, q1))
    (h2 : orLoop e [f1] q1.val = .ok (fs, q2)) :
    parseOr e pos = .ok ((match fs with | [f] => f | fs => Filter.or_ fs),
      ⟨q2.val, Nat.le_trans q1.property q2.property⟩) := by
  rw [parseOr]
  split
  · rename_i msg herr
    rw [h1] at herr
    exact Except.noConfusion herr
  · rename_i f2 p1 hok
    rw [h1] at hok
    simp only [Except.ok.injEq, Prod.mk.injEq] at hok
    obtain ⟨hf, hq⟩ := hok
    subst hf
    subst hq
    split
    · rename_i msg herr2
      rw [h2] at herr2
      exact Except.noConfusion herr2
    · rename_i fs2 p2 hok2
      rw [h2] at hok2
      simp only [Except.ok.injEq, Prod.mk.injEq] at hok2
      obtain ⟨hfs, hq2⟩ := hok2
      subst hfs
      subst hq2
      cases fs with
      | nil => exact congrArg Except.ok (Prod.ext rfl (Subtype.ext rfl))
      | cons f0 fs0 =>
        cases fs0 with
        | nil => exact congrArg Except.ok (Prod.ext rfl (Subtype.ext rfl))
        | cons f3 fs1 => exact congrArg Except.ok (Prod.ext rfl (Subtype.ext rfl))

/-- Running `FilterExpressionParser.parse` when the OR level consumes the
whole expression. -/
theorem parse_run (e : List Char) (f : Filter) (q : {p : Nat // 0 ≤ p})
    (h1 : parseOr e 0 = .ok (f, q))
    (hend : q.val = e.length) :
    FilterExpressionParser.parse e = .ok f := by
  have hsk : (skipWs e q.val).val = q.val := by
    refine skipWs_val e q.val [] [] ?_ (by intro c hc; cases hc) (Or.inl rfl)
    rw [hend]
    simp
  simp only [FilterExpressionParser.parse, h1]
  have hnlt : ¬((skipWs e q.val).val < e.length) := by
    rw [hsk, hend]
    exact Nat.lt_irrefl _
  rw [dif_neg hnlt]

/-- `_parse_atom` on (whitespace +) a parenthesized group: it parses the
inner OR expression and consumes through the closing parenthesis. -/
theorem parseAtom_paren (e : List Char) (pos : Nat) (ws tail : List Char)
    (f : Filter) (q1 : {p : Nat // pos + ws.length + 1 ≤ p})
    (ws2 tail2 : List Char)
    (hdrop : e.drop pos = ws ++ ('(' :: tail))
    (hws : ∀ c ∈ ws, wsChars.contains c = true)
    (hor : parseOr e (pos + ws.length + 1) = .ok (f, q1))
    (hdrop2 : e.drop q1.val = ws2 ++ (')' :: tail2))
    (hws2 : ∀ c ∈ ws2, wsChars.contains c = true) :
    parseAtom e pos = .ok (f, ⟨q1.val + ws2.length + 1, by
      have := q1.property
      omega⟩) := by
  have hskip : (skipWs e pos).val = pos + ws.length :=
    skipWs_val e pos ws _ hdrop hws (Or.inr ⟨'(', tail, rfl, by decide⟩)
  have hdrop1 : e.drop (pos + ws.length) = '(' :: tail :=
    drop_append_of_drop e pos ws _ hdrop
  obtain ⟨hlt, hget, _⟩ := drop_cons_parts e (pos + ws.length) '(' tail hdrop1
  have hdrop3 : e.drop (q1.val + ws2.length) = ')' :: tail2 :=
    drop_append_of_drop e q1.val ws2 _ hdrop2
  obtain ⟨hlt2, hget2, _⟩ := drop_cons_parts e (q1.val + ws2.length) ')' tail2 hdrop3
  rw [parseAtom]
  split
  · split
    · split
      · rename_i msg herr
        have hs := congrArg stripPos herr
        rw [stripPos_congr (parseOr e) (by omega : (skipWs e pos).val + 1 =
          pos + ws.length + 1), hor] at hs
        simp [stripPos] at hs
      · rename_i f1 p1 hok
        have hs := congrArg stripPos hok
        rw [stripPos_congr (parseOr e) (by omega : (skipWs e pos).val + 1 =
          pos + ws.length + 1), hor] at hs
        simp only [stripPos, Except.ok.injEq, Prod.mk.injEq] at hs
        obtain ⟨hf, hp1⟩ := hs
        subst hf
        have hd1 : e.drop p1.val = ws2 ++ (')' :: tail2) := by
          rw [← hp1]
          exact hdrop2
        have hsk2 : (skipWs e p1.val).val = p1.val + ws2.length :=
          skipWs_val e p1.val ws2 _ hd1 hws2 (Or.inr ⟨')', tail2, rfl, by decide⟩)
        have hlt2a : (skipWs e p1.val).val < e.length := by
          rw [hsk2, ← hp1]
          exact hlt2
        dsimp only
        split
        · split
          · refine congrArg Except.ok (Prod.ext rfl (Subtype.ext ?_))
            simp only
            rw [hsk2, ← hp1]
          · rename_i h2 hne
            have hfin : (⟨(skipWs e p1.val).val, h2⟩ : Fin e.length) =
                ⟨q1.val + ws2.length, hlt2⟩ := by
              rw [Fin.mk.injEq, hsk2, ← hp1]
            rw [hfin, hget2] at hne
            exact absurd rfl hne
        · rename_i h2
          exact absurd hlt2a h2
    · rename_i h hpar
      have hfin : (⟨(skipWs e pos).val, h⟩ : Fin e.length) =
          ⟨pos + ws.length, hlt⟩ := by
        rw [Fin.mk.injEq]
        exact hskip
      rw [hfin, hget] at hpar
      exact absurd rfl hpar
  · rename_i h
    rw [hskip] at h
    exact absurd hlt h

/-- `_parse_and` on (whitespace +) a single primitive reference followed
by a non-`'+'` stop: the reference's filter is returned unwrapped. -/
theorem parseAnd_single (e : List Char) (pos : Nat) (ws nm : List Char)
    (par : Option (List Char)) (ws2 rest2 : List Char) (f : Filter)
    (hdrop : e.drop pos = ws ++ (refChars nm par ++ (ws2 ++ rest2)))
    (hws : ∀ c ∈ ws, wsChars.contains c = true)
    (hv : ValidRefChars nm par = true)
    (hcreate : registryCreate (String.mk nm) (par.map String.mk) = .ok f)
    (hws2 : ∀ c ∈ ws2, wsChars.contains c = true)
    (hrb : RefBoundary (ws2 ++ rest2))
    (hstop2 : rest2 = [] ∨
      ∃ c t, rest2 = c :: t ∧ wsChars.contains c = false ∧ c ≠ '+') :
    parseAnd e pos = .ok (f,
      ⟨pos + ws.length + (refChars nm par).length + ws2.length, by omega⟩) := by
  obtain ⟨q, hq, hqv⟩ :=
    parseAtom_ref e pos ws nm par (ws2 ++ rest2) f hdrop hws hv hrb hcreate
  have hqe : q = ⟨pos + ws.length + (refChars nm par).length, by omega⟩ :=
    Subtype.ext hqv
  rw [hqe] at hq
  have hdropq : e.drop (pos + ws.length + (refChars nm par).length) =
      ws2 ++ rest2 := by
    have h1 : e.drop (pos + ws.length) = refChars nm par ++ (ws2 ++ rest2) :=
      drop_append_of_drop e pos ws _ hdrop
    exact drop_append_of_drop e (pos + ws.length) _ _ h1
  have hstop := andLoop_stop e [f] (pos + ws.length + (refChars nm par).length)
    ws2 rest2 hdropq hws2 hstop2
  exact parseAnd_run e pos f ⟨pos + ws.length + (refChars nm par).length, by omega⟩
    [f] ⟨pos + ws.length + (refChars nm par).length + ws2.length,
      Nat.le_add_right _ _⟩ hq hstop

/-- `_parse_and` on `a + b` (single spaces around the `'+'`) followed by a
non-`'+'` stop: the AND group of the two references is returned. -/
theorem parseAnd_pair (e : List Char) (pos : Nat)
    (nm1 nm2 : List Char) (par1 par2 : Option (List Char))
    (ws2 rest2 : List Char) (f1 f2 : Filter)
    (hdrop : e.drop pos = refChars nm1 par1 ++ (' ' :: '+' :: ' ' ::
      (refChars nm2 par2 ++ (ws2 ++ rest2))))
    (hv1 : ValidRefChars nm1 par1 = true)
    (hv2 : ValidRefChars nm2 par2 = true)
    (hc1 : registryCreate (String.mk nm1) (par1.map String.mk) = .ok f1)
    (hc2 : registryCreate (String.mk nm2) (par2.map String.mk) = .ok f2)
    (hws2 : ∀ c ∈ ws2, wsChars.contains c = true)
    (hrb : RefBoundary (ws2 ++ rest2))
    (hstop2 : rest2 = [] ∨
      ∃ c t, rest2 = c :: t ∧ wsChars.contains c = false ∧ c ≠ '+') :
    parseAnd e pos = .ok (.and_ [f1, f2],
      ⟨pos + (refChars nm1 par1).length + 3 + (refChars nm2 par2).length +
        ws2.length, by omega⟩) := by
  obtain ⟨q, hq, hqv⟩ := parseAtom_ref e pos [] nm1 par1
    (' ' :: '+' :: ' ' :: (refChars nm2 par2 ++ (ws2 ++ rest2))) f1
    (by simpa using hdrop) (by intro c hc; cases hc) hv1
    (Or.inr ⟨' ', _, rfl, Or.inl rfl⟩) hc1
  have hqe : q = ⟨pos + (refChars nm1 par1).length, by omega⟩ := by
    refine Subtype.ext ?_
    show q.val = pos + (refChars nm1 par1).length
    rw [hqv]
    simp
  rw [hqe] at hq
  have d1 : e.drop (pos + (refChars nm1 par1).length) = ' ' :: '+' :: ' ' ::
      (refChars nm2 par2 ++ (ws2 ++ rest2)) :=
    drop_append_of_drop e pos (refChars nm1 par1) _ hdrop
  have d2 := drop_of_drop_cons e _ _ _ d1
  have d3 := drop_of_drop_cons e _ _ _ d2
  obtain ⟨q2, hq2, hq2v⟩ := parseAtom_ref e (pos + (refChars nm1 par1).length + 2)
    [' '] nm2 par2 (ws2 ++ rest2) f2 (by exact d3) (by decide) hv2 hrb hc2
  have hq2e : q2 = ⟨pos + (refChars nm1 par1).length + 3 +
      (refChars nm2 par2).length, by omega⟩ := by
    refine Subtype.ext ?_
    show q2.val = pos + (refChars nm1 par1).length + 3 + (refChars nm2 par2).length
    rw [hq2v]
    simp only [List.length_cons, List.length_nil]
  rw [hq2e] at hq2
  have dB := drop_of_drop_cons e _ _ _ d3
  have dstop : e.drop (pos + (refChars nm1 par1).length + 3 +
      (refChars nm2 par2).length) = ws2 ++ rest2 :=
    drop_append_of_drop e _ _ _ dB
  have hstopA := andLoop_stop e [f1, f2] (pos + (refChars nm1 par1).length + 3 +
    (refChars nm2 par2).length) ws2 rest2 dstop hws2 hstop2
  have hstep := andLoop_step e [f1] (pos + (refChars nm1 par1).length) [' ']
    (' ' :: (refChars nm2 par2 ++ (ws2 ++ rest2))) f2
    ⟨pos + (refChars nm1 par1).length + 3 + (refChars nm2 par2).length,
      by simp only [List.length_cons, List.length_nil]; omega⟩
    [f1, f2]
    ⟨pos + (refChars nm1 par1).length + 3 + (refChars nm2 par2).length +
      ws2.length, Nat.le_add_right _ _⟩
    d1 (by decide) hq2 hstopA
  exact parseAnd_run e pos f1 ⟨pos + (refChars nm1 par1).length, by omega⟩
    [f1, f2]
    ⟨pos + (refChars nm1 par1).length + 3 + (refChars nm2 par2).length +
      ws2.length, (Nat.le_add_right _ _).trans ((Nat.le_add_right _ _).trans
        (Nat.le_add_right _ _))⟩ hq hstep

/-- Parsing a full expression of the shape `a + b | c` (single spaces
around the operators): the result is the OR of (the AND of the first two
references) and the third. -/
theorem parseOrTriple (e : List Char)
    (nm1 nm2 nm3 : List Char) (par1 par2 par3 : Option (List Char))
    (f1 f2 f3 : Filter)
    (hE : e = refChars nm1 par1 ++ (' ' :: '+' :: ' ' ::
      (refChars nm2 par2 ++ (' ' :: '|' :: ' ' :: refChars nm3 par3))))
    (hv1 : ValidRefChars nm1 par1 = true)
    (hv2 : ValidRefChars nm2 par2 = true)
    (hv3 : ValidRefChars nm3 par3 = true)
    (hc1 : registryCreate (String.mk nm1) (par1.map String.mk) = .ok f1)
    (hc2 : registryCreate (String.mk nm2) (par2.map String.mk) = .ok f2)
    (hc3 : registryCreate (String.mk nm3) (par3.map String.mk) = .ok f3) :
    FilterExpressionParser.parse e = .ok (.or_ [.and_ [f1, f2], f3]) := by
  have hlen : e.length = (refChars nm1 par1).length + (refChars nm2 par2).length +
      (refChars nm3 par3).length + 6 := by
    rw [hE]
    simp only [List.length_append, List.length_cons]
    omega
  have hpair := parseAnd_pair e 0 nm1 nm2 par1 par2 [' ']
    ('|' :: ' ' :: refChars nm3 par3) f1 f2
    (by rw [List.drop_zero, hE]; rfl) hv1 hv2 hc1 hc2
    (by decide)
    (Or.inr ⟨' ', _, rfl, Or.inl rfl⟩)
    (Or.inr ⟨'|', _, rfl, by decide, by decide⟩)
  have hpair2 : parseAnd e 0 = .ok (.and_ [f1, f2],
      ⟨(refChars nm1 par1).length + (refChars nm2 par2).length + 4,
        Nat.zero_le _⟩) := by
    rw [hpair]
    refine congrArg Except.ok (Prod.ext rfl (Subtype.ext ?_))
    show 0 + (refChars nm1 par1).length + 3 + (refChars nm2 par2).length +
        (' ' :: ([] : List Char)).length =
      (refChars nm1 par1).length + (refChars nm2 par2).length + 4
    simp only [List.length_cons, List.length_nil]
    omega
  have h0 : e.drop 0 = refChars nm1 par1 ++ (' ' :: '+' :: ' ' ::
      (refChars nm2 par2 ++ (' ' :: '|' :: ' ' :: refChars nm3 par3))) := by
    rw [List.drop_zero, hE]
  have d1a := drop_append_of_drop e 0 _ _ h0
  have d1 : e.drop (refChars nm1 par1).length = ' ' :: '+' :: ' ' ::
      (refChars nm2 par2 ++ (' ' :: '|' :: ' ' :: refChars nm3 par3)) := by
    rwa [Nat.zero_add] at d1a
  have d2 := drop_of_drop_cons e _ _ _ d1
  have d3 := drop_of_drop_cons e _ _ _ d2
  have d4 := drop_of_drop_cons e _ _ _ d3
  have d5 := drop_append_of_drop e _ _ _ d4
  have d6 := drop_of_drop_cons e _ _ _ d5
  have d6a : e.drop ((refChars nm1 par1).length + (refChars nm2 par2).length + 4) =
      '|' :: (' ' :: refChars nm3 par3) := by
    have hx : (refChars nm1 par1).length + 1 + 1 + 1 + (refChars nm2 par2).length + 1 =
        (refChars nm1 par1).length + (refChars nm2 par2).length + 4 := by omega
    rw [← hx]
    exact d6
  have d7 := drop_of_drop_cons e _ _ _ d6a
  have hsingle := parseAnd_single e ((refChars nm1 par1).length +
      (refChars nm2 par2).length + 4 + 1) [' '] nm3 par3 [] [] f3
    (by rw [List.nil_append, List.append_nil]; exact d7) (by decide) hv3 hc3
    (by intro c hc; cases hc) (Or.inl rfl) (Or.inl rfl)
  have hsingle2 : parseAnd e ((refChars nm1 par1).length +
      (refChars nm2 par2).length + 4 + 1) = .ok (f3,
      ⟨(refChars nm1 par1).length + (refChars nm2 par2).length +
        (refChars nm3 par3).length + 6, by omega⟩) := by
    rw [hsingle]
    refine congrArg Except.ok (Prod.ext rfl (Subtype.ext ?_))
    show (refChars nm1 par1).length + (refChars nm2 par2).length + 4 + 1 +
        (' ' :: ([] : List Char)).length + (refChars nm3 par3).length +
        ([] : List Char).length =
      (refChars nm1 par1).length + (refChars nm2 par2).length +
        (refChars nm3 par3).length + 6
    simp only [List.length_cons, List.length_nil]
    omega
  have hdropEnd : e.drop ((refChars nm1 par1).length + (refChars nm2 par2).length +
      (refChars nm3 par3).length + 6) = [] := by
    rw [← hlen]
    exact List.drop_length e
  have hstopOr := orLoop_stop e [.and_ [f1, f2], f3]
    ((refChars nm1 par1).length + (refChars nm2 par2).length +
      (refChars nm3 par3).length + 6) [] []
    (by exact hdropEnd) (by intro c hc; cases hc) (Or.inl rfl)
  have hstepOr := orLoop_step e [.and_ [f1, f2]]
    ((refChars nm1 par1).length + (refChars nm2 par2).length + 4) []
    (' ' :: refChars nm3 par3) f3
    ⟨(refChars nm1 par1).length + (refChars nm2 par2).length +
      (refChars nm3 par3).length + 6, by simp only [List.length_nil]; omega⟩
    [.and_ [f1, f2], f3]
    ⟨(refChars nm1 par1).length + (refChars nm2 par2).length +
      (refChars nm3 par3).length + 6, Nat.le_refl _⟩
    (by exact d6a) (by intro c hc; cases hc) (by exact hsingle2) (by exact hstopOr)
  have hor := parseOr_run e 0 (.and_ [f1, f2])
    ⟨(refChars nm1 par1).length + (refChars nm2 par2).length + 4, Nat.zero_le _⟩
    [.and_ [f1, f2], f3]
    ⟨(refChars nm1 par1).length + (refChars nm2 par2).length +
      (refChars nm3 par3).length + 6, by
        show (refChars nm1 par1).length + (refChars nm2 par2).length + 4 ≤
          (refChars nm1 par1).length + (refChars nm2 par2).length +
            (refChars nm3 par3).length + 6
        omega⟩
    hpair2 hstepOr
  exact parse_run e (.or_ [.and_ [f1, f2], f3])
    ⟨(refChars nm1 par1).length + (refChars nm2 par2).length +
      (refChars nm3 par3).length + 6, Nat.zero_le _⟩
    hor hlen.symm

/-- Parsing a full expression of the shape `(a + b) | c`: the
parenthesized group overrides nothing here — the result is again the OR
of (the AND of the first two references) and the third. -/
theorem parseParenTriple (e : List Char)
    (nm1 nm2 nm3 : List Char) (par1 par2 par3 : Option (List Char))
    (f1 f2 f3 : Filter)
    (hE : e = '(' :: (refChars nm1 par1 ++ (' ' :: '+' :: ' ' ::
      (refChars nm2 par2 ++ (')' :: ' ' :: '|' :: ' ' :: refChars nm3 par3)))))
    (hv1 : ValidRefChars nm1 par1 = true)
    (hv2 : ValidRefChars nm2 par2 = true)
    (hv3 : ValidRefChars nm3 par3 = true)
    (hc1 : registryCreate (String.mk nm1) (par1.map String.mk) = .ok f1)
    (hc2 : registryCreate (String.mk nm2) (par2.map String.mk) = .ok f2)
    (hc3 : registryCreate (String.mk nm3) (par3.map String.mk) = .ok f3) :
    FilterExpressionParser.parse e = .ok (.or_ [.and_ [f1, f2], f3]) := by
  have hlen : e.length = (refChars nm1 par1).length + (refChars nm2 par2).length +
      (refChars nm3 par3).length + 8 := by
    rw [hE]
    simp only [List.length_append, List.length_cons]
    omega
  have h0 : e.drop 0 = '(' :: (refChars nm1 par1 ++ (' ' :: '+' :: ' ' ::
      (refChars nm2 par2 ++ (')' :: ' ' :: '|' :: ' ' :: refChars nm3 par3)))) := by
    rw [List.drop_zero, hE]
  have d1 := drop_of_drop_cons e _ _ _ h0
  have hpair := parseAnd_pair e 1 nm1 nm2 par1 par2 []
    (')' :: ' ' :: '|' :: ' ' :: refChars nm3 par3) f1 f2
    (by exact d1) hv1 hv2 hc1 hc2
    (by intro c hc; cases hc)
    (Or.inr ⟨')', _, rfl, Or.inr (Or.inr (Or.inr rfl))⟩)
    (Or.inr ⟨')', _, rfl, by decide, by decide⟩)
  have hpair2 : parseAnd e 1 = .ok (.and_ [f1, f2],
      ⟨(refChars nm1 par1).length + (refChars nm2 par2).length + 4, by omega⟩) := by
    rw [hpair]
    refine congrArg Except.ok (Prod.ext rfl (Subtype.ext ?_))
    show 1 + (refChars nm1 par1).length + 3 + (refChars nm2 par2).length +
        ([] : List Char).length =
      (refChars nm1 par1).length + (refChars nm2 par2).length + 4
    simp only [List.length_nil]
    omega
  have dA := drop_append_of_drop e 1 _ _ d1
  have dB := drop_of_drop_cons e _ _ _ dA
  have dC := drop_of_drop_cons e _ _ _ dB
  have dD := drop_of_drop_cons e _ _ _ dC
  have dE := drop_append_of_drop e _ _ _ dD
  have dRp : e.drop ((refChars nm1 par1).length + (refChars nm2 par2).length + 4) =
      ')' :: (' ' :: '|' :: ' ' :: refChars nm3 par3) := by
    have hx : 1 + (refChars nm1 par1).length + 1 + 1 + 1 +
        (refChars nm2 par2).length =
        (refChars nm1 par1).length + (refChars nm2 par2).length + 4 := by omega
    rw [← hx]
    exact dE
  have hstopOr1 := orLoop_stop e [.and_ [f1, f2]]
    ((refChars nm1 par1).length + (refChars nm2 par2).length + 4) []
    (')' :: ' ' :: '|' :: ' ' :: refChars nm3 par3)
    (by exact dRp) (by intro c hc; cases hc)
    (Or.inr ⟨')', _, rfl, by decide, by decide⟩)
  have hor1 := parseOr_run e 1 (.and_ [f1, f2])
    ⟨(refChars nm1 par1).length + (refChars nm2 par2).length + 4, by omega⟩
    [.and_ [f1, f2]]
    ⟨(refChars nm1 par1).length + (refChars nm2 par2).length + 4, Nat.le_refl _⟩
    hpair2 hstopOr1
  have hatomP := parseAtom_paren e 0 []
    (refChars nm1 par1 ++ (' ' :: '+' :: ' ' ::
      (refChars nm2 par2 ++ (')' :: ' ' :: '|' :: ' ' :: refChars nm3 par3))))
    (.and_ [f1, f2])
    ⟨(refChars nm1 par1).length + (refChars nm2 par2).length + 4, by
      show 0 + ([] : List Char).length + 1 ≤ _
      simp only [List.length_nil]
      omega⟩
    [] (' ' :: '|' :: ' ' :: refChars nm3 par3)
    (by exact h0) (by intro c hc; cases hc) (by exact hor1) (by exact dRp)
    (by intro c hc; cases hc)
  have d5 := drop_of_drop_cons e _ _ _ dRp
  have hstopA := andLoop_stop e [.and_ [f1, f2]]
    ((refChars nm1 par1).length + (refChars nm2 par2).length + 4 + 1) [' ']
    ('|' :: ' ' :: refChars nm3 par3)
    (by exact d5) (by decide)
    (Or.inr ⟨'|', _, rfl, by decide, by decide⟩)
  have hand0 := parseAnd_run e 0 (.and_ [f1, f2])
    ⟨(refChars nm1 par1).length + (refChars nm2 par2).length + 5, Nat.zero_le _⟩
    [.and_ [f1, f2]]
    ⟨(refChars nm1 par1).length + (refChars nm2 par2).length + 6, Nat.le_succ _⟩
    (by exact hatomP) (by exact hstopA)
  have d6 := drop_of_drop_cons e _ _ _ d5
  have d7 := drop_of_drop_cons e _ _ _ d6
  have hsingle := parseAnd_single e ((refChars nm1 par1).length +
      (refChars nm2 par2).length + 4 + 1 + 1 + 1) [' '] nm3 par3 [] [] f3
    (by rw [List.nil_append, List.append_nil]; exact d7) (by decide) hv3 hc3
    (by intro c hc; cases hc) (Or.inl rfl) (Or.inl rfl)
  have hsingle2 : parseAnd e ((refChars nm1 par1).length +
      (refChars nm2 par2).length + 4 + 1 + 1 + 1) = .ok (f3,
      ⟨(refChars nm1 par1).length + (refChars nm2 par2).length +
        (refChars nm3 par3).length + 8, by omega⟩) := by
    rw [hsingle]
    refine congrArg Except.ok (Prod.ext rfl (Subtype.ext ?_))
    show (refChars nm1 par1).length + (refChars nm2 par2).length + 4 + 1 + 1 + 1 +
        (' ' :: ([] : List Char)).length + (refChars nm3 par3).length +
        ([] : List Char).length =
      (refChars nm1 par1).length + (refChars nm2 par2).length +
        (refChars nm3 par3).length + 8
    simp only [List.length_cons, List.length_nil]
    omega
  have hdropEnd : e.drop ((refChars nm1 par1).length + (refChars nm2 par2).length +
      (refChars nm3 par3).length + 8) = [] := by
    rw [← hlen]
    exact List.drop_length e
  have hstopOr := orLoop_stop e [.and_ [f1, f2], f3]
    ((refChars nm1 par1).length + (refChars nm2 par2).length +
      (refChars nm3 par3).length + 8) [] []
    (by exact hdropEnd) (by intro c hc; cases hc) (Or.inl rfl)
  have hstepOr := orLoop_step e [.and_ [f1, f2]]
    ((refChars nm1 par1).length + (refChars nm2 par2).length + 6) []
    (' ' :: refChars nm3 par3) f3
    ⟨(refChars nm1 par1).length + (refChars nm2 par2).length +
      (refChars nm3 par3).length + 8, by simp only [List.length_nil]; omega⟩
    [.and_ [f1, f2], f3]
    ⟨(refChars nm1 par1).length + (refChars nm2 par2).length +
      (refChars nm3 par3).length + 8, Nat.le_refl _⟩
    (by exact d6) (by intro c hc; cases hc) (by exact hsingle2) (by exact hstopOr)
  have hor := parseOr_run e 0 (.and_ [f1, f2])
    ⟨(refChars nm1 par1).length + (refChars nm2 par2).length + 6, Nat.zero_le _⟩
    [.and_ [f1, f2], f3]
    ⟨(refChars nm1 par1).length + (refChars nm2 par2).length +
      (refChars nm3 par3).length + 8, by
        show (refChars nm1 par1).length + (refChars nm2 par2).length + 6 ≤
          (refChars nm1 par1).length + (refChars nm2 par2).length +
            (refChars nm3 par3).length + 8
        omega⟩
    hand0 hstepOr
  exact parse_run e (.or_ [.and_ [f1, f2], f3])
    ⟨(refChars nm1 par1).length + (refChars nm2 par2).length +
      (refChars nm3 par3).length + 8, Nat.zero_le _⟩
    hor hlen.symm

/-- C5: the expression parser gives `'+'` (AND) higher precedence than
`'|'` (OR): for all primitive references `a`, `b`, `c` (any registered
name with a well-formed optional parameter), `a + b | c` and `(a + b) | c`
both parse to the OR group whose first child is the AND group of `a` and
`b` and whose second child is `c`. -/
theorem plus_binds_tighter_than_bar
    (nmA nmB nmC : List Char) (parA parB parC : Option (List Char))
    (fa fb fc : Filter)
    (hvA : ValidRefChars nmA parA = true)
    (hvB : ValidRefChars nmB parB = true)
    (hvC : ValidRefChars nmC parC = true)
    (hA : registryCreate (String.mk nmA) (parA.map String.mk) = .ok fa)
    (hB : registryCreate (String.mk nmB) (parB.map String.mk) = .ok fb)
    (hC : registryCreate (String.mk nmC) (parC.map String.mk) = .ok fc) :
    parse_filter_expression (String.mk (refChars nmA parA ++ (' ' :: '+' :: ' ' ::
        (refChars nmB parB ++ (' ' :: '|' :: ' ' :: refChars nmC parC))))) =
      .ok (.or_ [.and_ [fa, fb], fc]) ∧
    parse_filter_expression (String.mk ('(' :: (refChars nmA parA ++
        (' ' :: '+' :: ' ' :: (refChars nmB parB ++
          (')' :: ' ' :: '|' :: ' ' :: refChars nmC parC)))))) =
      .ok (.or_ [.and_ [fa, fb], fc]) :=
  ⟨parseOrTriple _ nmA nmB nmC parA parB parC fa fb fc rfl hvA hvB hvC hA hB hC,
   parseParenTriple _ nmA nmB nmC parA parB parC fa fb fc rfl hvA hvB hvC hA hB hC⟩

/-- Witness for C5 at the references `not-following-back`,
`below-followers:100` and `deactivated`. -/
theorem plus_binds_tighter_than_bar_witness :
    parse_filter_expression (String.mk (refChars "not-following-back".data none ++
        (' ' :: '+' :: ' ' :: (refChars "below-followers".data (some "100".data) ++
          (' ' :: '|' :: ' ' :: refChars "deactivated".data none))))) =
      .ok (.or_ [.and_ [.notFollowingBack, BelowFollowersFilter 100],
        .deactivated]) ∧
    parse_filter_expression (String.mk ('(' ::
        (refChars "not-following-back".data none ++
        (' ' :: '+' :: ' ' :: (refChars "below-followers".data (some "100".data) ++
          (')' :: ' ' :: '|' :: ' ' :: refChars "deactivated".data none)))))) =
      .ok (.or_ [.and_ [.notFollowingBack, BelowFollowersFilter 100],
        .deactivated]) :=
  plus_binds_tighter_than_bar "not-following-back".data "below-followers".data
    "deactivated".data none (some "100".data) none
    .notFollowingBack (BelowFollowersFilter 100) .deactivated
    (by decide) (by decide) (by decide) rfl rfl rfl

/-- C9: flat-spec parsing and predicate construction reject invalid input
at construction time: an unknown name fails with an error listing every
known name in sorted order, a parameterless predicate rejects any
parameter, and a parameterized predicate rejects a missing parameter. -/
theorem construction_rejects_invalid :
    (∀ nm : String, nm.data ≠ [] → (∀ c ∈ nm.data, isSpecNameChar c = true) →
      nm ∉ registryNames →
      parse_filter_spec nm = .error (unknownFilterMsg nm)) ∧
    availableStr = "above-followers, below-followers, deactivated, inactive, mutual, no-interaction, no-posts, not-following-back, repost-ratio, too-many-followings" ∧
    (∀ name p, name ∈ registryNames → hasParamB name = false →
      registryCreate name (some p) =
        .error ("Filter " ++ pyRepr name ++ " does not accept parameters")) ∧
    (∀ name, name ∈ registryNames → hasParamB name = true →
      registryCreate name none =
        .error ("Filter " ++ pyRepr name ++ " requires a parameter")) := by
  refine ⟨fun nm hne hchars hmem => ?_, by decide, fun name p hmem hnp => ?_,
    fun name hmem hnp => ?_⟩
  · have hmk : String.mk nm.data = nm := by cases nm; rfl
    have htake : nm.data.takeWhile isSpecNameChar = nm.data :=
      List.takeWhile_eq_self_iff.mpr hchars
    have hdrop : nm.data.dropWhile isSpecNameChar = [] :=
      List.dropWhile_eq_nil_iff.mpr hchars
    have hpm : pyMatchSpec nm.data = some (nm.data, none) := by
      simp [pyMatchSpec, htake, hdrop, hne]
    simp only [parse_filter_spec, hpm, Option.map_none', hmk]
    simp only [registryNames, List.mem_cons, List.not_mem_nil, or_false] at hmem
    push_neg at hmem
    obtain ⟨h1, h2, h3, h4, h5, h6, h7, h8, h9, h10⟩ := hmem
    simp [registryCreate, h1, h2, h3, h4, h5, h6, h7, h8, h9, h10]
  · simp only [registryNames, List.mem_cons, List.not_mem_nil, or_false] at hmem
    rcases hmem with rfl | rfl | rfl | rfl | rfl | rfl | rfl | rfl | rfl | rfl <;>
      first
        | rfl
        | simp [hasParamB] at hnp
  · simp only [registryNames, List.mem_cons, List.not_mem_nil, or_false] at hmem
    rcases hmem with rfl | rfl | rfl | rfl | rfl | rfl | rfl | rfl | rfl | rfl <;>
      first
        | rfl
        | simp [hasParamB] at hnp

/-- Witness for C9: the unknown name `zzz`, a parameter passed to
`mutual`, and `inactive` without its parameter all fail with the
documented errors. -/
theorem construction_rejects_invalid_witness :
    parse_filter_spec "zzz" = .error (unknownFilterMsg "zzz") ∧
    registryCreate "mutual" (some "5") =
      .error ("Filter " ++ pyRepr "mutual" ++ " does not accept parameters") ∧
    registryCreate "inactive" none =
      .error ("Filter " ++ pyRepr "inactive" ++ " requires a parameter") :=
  ⟨construction_rejects_invalid.1 "zzz" (by decide) (by decide) (by decide),
   construction_rejects_invalid.2.2.1 "mutual" "5" (by decide) (by decide),
   construction_rejects_invalid.2.2.2 "inactive" (by decide) (by decide)⟩

/-- C4 (amended): a `RepostRatio` filter whose parameter is strictly
greater than 1 never matches (the repost count never exceeds the post
count); at parameter exactly 1 the filter can match, see the
counterexample. -/
theorem repost_ratio_gt_one_never_matches (rate : ℚ) (u : Following)
    (env : ContextEnv) (st : EvalState) (v : CacheValue) (a : ActivityRecord)
    (st₁ : EvalState) (hrate : 1 < rate)
    (hget : get_user_activity env st u.mid = (v, st₁))
    (hact : v.asActivity = .ok a)
    (hle : a.repost_count ≤ a.total_dynamics) :
    Filter.matches (.repostRatioFilter rate) u env st = .ok (MatchInfo.no_match, st₁) := by
  by_cases ht : a.total_dynamics = 0
  · simp [Filter.matches, hget, hact, ht]
  · have htpos : (0 : ℚ) < (a.total_dynamics : ℚ) := by
      exact_mod_cast Nat.pos_of_ne_zero ht
    have hdiv : checkedDivQ (a.repost_count : ℚ) (a.total_dynamics : ℚ) =
        .ok ((a.repost_count : ℚ) / (a.total_dynamics : ℚ)) := by
      simp [checkedDivQ, Nat.cast_eq_zero, ht]
    have hnge : ¬ ((a.repost_count : ℚ) / (a.total_dynamics : ℚ) ≥ rate) := by
      rw [ge_iff_le, not_le]
      have h1 : (a.repost_count : ℚ) / (a.total_dynamics : ℚ) ≤ 1 := by
        rw [div_le_one htpos]
        exact_mod_cast hle
      linarith
    simp [Filter.matches, hget, hact, ht, hdiv, hnge]

/-- Witness for C4's amended theorem: parameter 1.5 against a record with
4 reposts out of 5 posts does not match. -/
theorem repost_ratio_gt_one_never_matches_witness :
    Filter.matches (.repostRatioFilter (3 / 2)) sampleUser envBase emptyState =
      .ok (MatchInfo.no_match, stAfterActivity) :=
  repost_ratio_gt_one_never_matches (3 / 2) sampleUser envBase emptyState
    (.activity ⟨false, 5, 4, some 0⟩) ⟨false, 5, 4, some 0⟩ stAfterActivity
    (by norm_num)
    (by simp [get_user_activity, sampleUser, envBase, emptyState, initState,
      assocLookup, CachedDataFetcher.get_or_fetch, make_user_activity_key,
      stAfterActivity])
    rfl
    (by decide)

/-- Counterexample to C4 as stated: the filter can be constructed with the
parameter `1.0 ≥ 1`, and against a record whose recent posts are all
reposts (4 of 4) the computed ratio is exactly 1 ≥ 1, so it matches. -/
theorem repost_ratio_one_counterexample :
    registryCreate "repost-ratio" (some "1.0") = .ok (.repostRatioFilter 1) ∧
    (1 : ℚ) ≥ 1 ∧
    Filter.matches (.repostRatioFilter 1) sampleUser envAllRepost emptyState =
      .ok (.match1 "repost-ratio" "100% 为转发",
        ⟨[], [(1, .activity ⟨false, 4, 4, some 0⟩)], ⟨none⟩, [], [1]⟩) := by
  refine ⟨?_, le_refl 1, ?_⟩
  · have hf : parseFloatPy "1.0" = some 1 := by
      simp [parseFloatPy, digitsVal]
    simp [registryCreate, Filter._parse_float_param, Filter._require_param, hf]
  · have hdiv : checkedDivQ (4 : ℚ) (4 : ℚ) = .ok 1 := by
      norm_num [checkedDivQ]
    have hpct : Rat.floor (100 : ℚ) = 100 := by decide
    have hstr : toString (100 : ℤ) = "100" := rfl
    simp [Filter.matches, get_user_activity, sampleUser, envAllRepost, emptyState,
      initState, assocLookup, CachedDataFetcher.get_or_fetch,
      make_user_activity_key, CacheValue.asActivity, hdiv, hpct, hstr,
      MatchInfo.match1]

/-- Witness for C10: a user with exactly 5000 followers and followings
matches neither direction at threshold 5000. -/
theorem threshold_strict_both_directions_witness :
    (Filter.matches (BelowFollowersFilter 5000) sampleUser envStat5000 emptyState =
      .ok (.no_match, ⟨[(1, .stat ⟨some 5000, some 5000⟩)], [], ⟨none⟩, [1], []⟩) ∧
     Filter.matches (AboveFollowersFilter 5000) sampleUser envStat5000 emptyState =
      .ok (.no_match, ⟨[(1, .stat ⟨some 5000, some 5000⟩)], [], ⟨none⟩, [1], []⟩)) ∧
    Filter.matches (TooManyFollowingsFilter 5000) sampleUser envStat5000 emptyState =
      .ok (.no_match, ⟨[(1, .stat ⟨some 5000, some 5000⟩)], [], ⟨none⟩, [1], []⟩) := by
  refine ⟨(threshold_strict_both_directions 5000 sampleUser envStat5000 emptyState
    (.stat ⟨some 5000, some 5000⟩) _ ?_).1 (by decide),
    (threshold_strict_both_directions 5000 sampleUser envStat5000 emptyState
    (.stat ⟨some 5000, some 5000⟩) _ ?_).2 (by decide)⟩ <;>
  · simp [get_user_stat, sampleUser, envStat5000, emptyState, initState, assocLookup,
      CachedDataFetcher.get_or_fetch, make_user_stat_key]

end BFA
